import Mathlib

/-!
# pico-raycaster: Q15.16 fixed-point arithmetic and DDA grid traversal

A shallow embedding of `lib/fixed_point/include/fixed_point.hpp`,
`lib/fixed_point/include/fp_math.hpp`, `include/map_data.hpp`,
`include/textures.hpp` and the ray loop and input handling of
`src/pico-raycaster.cpp`.

Machine integers are mathematical integers together with an explicit
reduction at every point where the C++ code stores into a fixed-width type.
Arithmetic on `int` that leaves the 32-bit range is taken to wrap (two's
complement), which is what the target (ARM, GCC) does and what the library
documents ("Not clamped on overflow").
-/

namespace PicoRaycaster

/-! ## Machine integers -/

/-- Conversion to `int16_t`: the representative modulo 2^16 in [-2^15, 2^15). -/
def toInt16 (x : Int) : Int :=
  let r := x % 65536
  if r < 32768 then r else r - 65536

/-- Conversion to `int32_t`: the representative modulo 2^32 in [-2^31, 2^31). -/
def toInt32 (x : Int) : Int :=
  let r := x % 4294967296
  if r < 2147483648 then r else r - 4294967296

/-- Conversion to `int64_t`: the representative modulo 2^64 in [-2^63, 2^63). -/
def toInt64 (x : Int) : Int :=
  let r := x % 18446744073709551616
  if r < 9223372036854775808 then r else r - 18446744073709551616

/-- Conversion to `uint8_t`. -/
def toUInt8 (x : Int) : Nat := (x % 256).toNat

/-- Conversion to `uint32_t` (`unsigned int`). -/
def toUInt32 (x : Int) : Nat := (x % 4294967296).toNat

/-- The range of `int16_t`. -/
def IsInt16 (x : Int) : Prop := -32768 ≤ x ∧ x ≤ 32767

/-- The range of `int32_t`. -/
def IsInt32 (x : Int) : Prop := -2147483648 ≤ x ∧ x ≤ 2147483647

/-- The range of `int64_t`. -/
def IsInt64 (x : Int) : Prop := -9223372036854775808 ≤ x ∧ x ≤ 9223372036854775807

instance (x : Int) : Decidable (IsInt16 x) := inferInstanceAs (Decidable (_ ∧ _))

instance (x : Int) : Decidable (IsInt32 x) := inferInstanceAs (Decidable (_ ∧ _))

instance (x : Int) : Decidable (IsInt64 x) := inferInstanceAs (Decidable (_ ∧ _))

/-- The constant `INT32_MAX` of `<cstdint>`. -/
def INT32_MAX : Int := 2147483647

/-! ## `Fixed15_16` (fixed_point.hpp) -/

/-- The class `Fixed15_16`: one `int32_t` field `value_` holding the real value
times 65536. -/
structure Fixed15_16 where
  value_ : Int
deriving DecidableEq, Repr

namespace Fixed15_16

/-- The constant `FRAC_SHIFT = 16`. -/
def FRAC_SHIFT : Nat := 16

/-- The constant `ONE = ((int32_t)1 << FRAC_SHIFT)`. -/
def ONE : Int := toInt32 (1 * 2 ^ FRAC_SHIFT)

/-- A value whose field is a genuine `int32_t`. -/
def Valid (x : Fixed15_16) : Prop := IsInt32 x.value_

instance (x : Fixed15_16) : Decidable (Valid x) := inferInstanceAs (Decidable (IsInt32 _))

/-- The function `roundToFixed(float x)`, for a `float` that is the exact
fraction `num / den` (`den > 0`): `scaled = x * ONE`, then `scaled + 0.5` or
`scaled - 0.5` by the sign of `scaled`, then `static_cast<int32_t>`, which
truncates toward zero. Scaling a `float` by `ONE = 2^16` and adding `0.5` in
`double` are exact, so the fraction arithmetic below is the value the C++
computes: `scaled ± 1/2 = (2 * num * ONE ± den) / (2 * den)`. -/
def roundToFixed (num : Int) (den : Nat) : Int :=
  if num * ONE ≥ 0 then
    toInt32 (Int.tdiv (2 * num * ONE + den) (2 * den))
  else
    toInt32 (Int.tdiv (2 * num * ONE - den) (2 * den))

/-- The float constructor `Fixed15_16(const float dVal)` at the float `num / den`. -/
def ofFloat (num : Int) (den : Nat) : Fixed15_16 :=
  ⟨toInt32 (roundToFixed num den)⟩

/-- The integer constructor `Fixed15_16(int iVal)`:
`value_(static_cast<int32_t>(iVal) << FRAC_SHIFT)`. -/
def ofInt (iVal : Int) : Fixed15_16 :=
  ⟨toInt32 (toInt32 iVal * 2 ^ FRAC_SHIFT)⟩

/-- The named constructor `fromRaw(const int32_t raw)`. -/
def fromRaw (raw : Int) : Fixed15_16 := ⟨raw⟩

/-- The method `toInt`: `static_cast<int16_t>(value_ >> FRAC_SHIFT)`; `>>` on a
signed value is the arithmetic shift. -/
def toInt (x : Fixed15_16) : Int := toInt16 (x.value_ >>> FRAC_SHIFT)

/-- The method `toRaw`. -/
def toRaw (x : Fixed15_16) : Int := x.value_

/-- The defaulted comparison `lhs < rhs` of two `Fixed15_16` (on `value_`). -/
def lt (lhs rhs : Fixed15_16) : Bool := decide (lhs.value_ < rhs.value_)

/-- The comparison `lhs < rhs` with an `int16_t` right-hand side:
`lhs.value_ <=> (static_cast<int32_t>(rhs) << FRAC_SHIFT)`. -/
def ltInt (lhs : Fixed15_16) (rhs : Int) : Bool :=
  decide (lhs.value_ < toInt32 (rhs * 2 ^ FRAC_SHIFT))

/-- The comparison `lhs > rhs` with an `int16_t` right-hand side. -/
def gtInt (lhs : Fixed15_16) (rhs : Int) : Bool :=
  decide (lhs.value_ > toInt32 (rhs * 2 ^ FRAC_SHIFT))

/-- The comparison `lhs == rhs` with an `int16_t` right-hand side:
`lhs.value_ == (static_cast<int32_t>(rhs) << FRAC_SHIFT)`. -/
def eqInt (lhs : Fixed15_16) (rhs : Int) : Bool :=
  decide (lhs.value_ = toInt32 (rhs * 2 ^ FRAC_SHIFT))

/-- The operator `a + b`, through `operator+=`: `value_ += other.value_`. -/
def add (a b : Fixed15_16) : Fixed15_16 := ⟨toInt32 (a.value_ + b.value_)⟩

/-- The operator `a - b`, through `operator-=`: `value_ -= other.value_`. -/
def sub (a b : Fixed15_16) : Fixed15_16 := ⟨toInt32 (a.value_ - b.value_)⟩

/-- The operator `a * b`, through `operator*=`:
`value_ = (static_cast<int64_t>(value_) * other.value_) >> FRAC_SHIFT`. -/
def mul (a b : Fixed15_16) : Fixed15_16 :=
  ⟨toInt32 (toInt64 (a.value_ * b.value_) >>> FRAC_SHIFT)⟩

/-- The operator `a / b`, through `operator/=`:
`value_ = ((static_cast<int64_t>(value_) << FRAC_SHIFT) / other.value_)`; the
C++ `/` truncates toward zero. A zero divisor is undefined behaviour in the
source ("does not check for division by zero") and is `none` here. -/
def div (a b : Fixed15_16) : Option Fixed15_16 :=
  if b.value_ = 0 then none
  else some ⟨toInt32 (toInt64 (Int.tdiv (toInt64 (a.value_ * 2 ^ FRAC_SHIFT)) b.value_))⟩

/-- The unary `operator-`: `fromRaw(-value_)`. -/
def neg (a : Fixed15_16) : Fixed15_16 := fromRaw (toInt32 (-a.value_))

/-- The mixed `operator+(Fixed15_16 a, int16_t b)`: `a + Fixed15_16(b)`. -/
def addInt (a : Fixed15_16) (b : Int) : Fixed15_16 := add a (ofInt b)

/-- The mixed `operator-(Fixed15_16 a, int16_t b)`: `a - Fixed15_16(b)`. -/
def subInt (a : Fixed15_16) (b : Int) : Fixed15_16 := sub a (ofInt b)

/-- The mixed `operator-(int16_t a, Fixed15_16 b)`: `Fixed15_16(a) - b`. -/
def intSub (a : Int) (b : Fixed15_16) : Fixed15_16 := sub (ofInt a) b

/-- The mixed `operator/(Fixed15_16 a, int16_t b)`: `a / Fixed15_16(b)`. -/
def divInt (a : Fixed15_16) (b : Int) : Option Fixed15_16 := div a (ofInt b)

/-- The mixed `operator/(int16_t a, Fixed15_16 b)`: `Fixed15_16(a) / b`. -/
def intDiv (a : Int) (b : Fixed15_16) : Option Fixed15_16 := div (ofInt a) b

/-- The mixed `operator*(Fixed15_16 a, int16_t b)`: `fromRaw(a.toRaw() * b)`,
a product of two `int`. -/
def mulInt (a : Fixed15_16) (b : Int) : Fixed15_16 := fromRaw (toInt32 (a.toRaw * b))

/-- The mixed `operator*(int16_t a, Fixed15_16 b)`: `fromRaw(a * b.toRaw())`. -/
def intMul (a : Int) (b : Fixed15_16) : Fixed15_16 := fromRaw (toInt32 (a * b.toRaw))

/-- The operator `a << shift`: `fromRaw(a.toRaw() << shift)`. -/
def shl (a : Fixed15_16) (shift : Nat) : Fixed15_16 :=
  fromRaw (toInt32 (a.toRaw * 2 ^ shift))

/-- The operator `a >> shift`: `fromRaw(a.toRaw() >> shift)`. -/
def shr (a : Fixed15_16) (shift : Nat) : Fixed15_16 :=
  fromRaw (a.toRaw >>> shift)

end Fixed15_16

/-! ## Free functions (fp_math.hpp) -/

open Fixed15_16 in
/-- The function `floor`: `fromRaw(val.toRaw() & 0xFFFF0000)`. The literal
`0xFFFF0000` has type `unsigned int`, so the raw value is converted to
`uint32_t`, masked, and converted back to `int32_t` by `fromRaw`. -/
def floor (val : Fixed15_16) : Fixed15_16 :=
  fromRaw (toInt32 (Int.ofNat (toUInt32 val.toRaw &&& 0xFFFF0000)))

/-- The function `fractional`: `val - floor(val)`. -/
def fractional (val : Fixed15_16) : Fixed15_16 :=
  Fixed15_16.sub val (floor val)

open Fixed15_16 in
/-- The function `abs`: `fromRaw(-val.toRaw())` when `val < 0`, else `val`. -/
def abs (val : Fixed15_16) : Fixed15_16 :=
  if val.ltInt 0 then fromRaw (toInt32 (-val.toRaw)) else val


/-! ## The sine table and `sinfp`, `cosfp` (fp_math.hpp) -/

/-- The constant `SIN_LUT_SIZE = 91`. -/
def SIN_LUT_SIZE : Nat := 91

/-- The table `FP_SIN_TABLE = generateSinTable()`: entry `d`, for `d` from 0 to 90, is
`Fixed15_16(static_cast<float>(cxprTaylorSin(d * (pi / 180.0))))`. The compile-time
evaluation (the Taylor sum in `double`, the cast to `float`, `roundToFixed`) gives the
raw values listed here; each is the sine of `d` degrees times 65536, rounded to the
nearest integer. -/
def FP_SIN_TABLE : List Fixed15_16 :=
  List.map Fixed15_16.fromRaw [
    0, 1144, 2287, 3430, 4572, 5712, 6850, 7987, 9121, 10252,
    11380, 12505, 13626, 14742, 15855, 16962, 18064, 19161, 20252, 21336,
    22415, 23486, 24550, 25607, 26656, 27697, 28729, 29753, 30767, 31772,
    32768, 33754, 34729, 35693, 36647, 37590, 38521, 39441, 40348, 41243,
    42126, 42995, 43852, 44695, 45525, 46341, 47143, 47930, 48703, 49461,
    50203, 50931, 51643, 52339, 53020, 53684, 54332, 54963, 55578, 56175,
    56756, 57319, 57865, 58393, 58903, 59396, 59870, 60326, 60764, 61183,
    61584, 61966, 62328, 62672, 62997, 63303, 63589, 63856, 64104, 64332,
    64540, 64729, 64898, 65048, 65177, 65287, 65376, 65446, 65496, 65526,
    65536]

/-- The first part of `sinfp(int16_t a)`, lines 75 to 93: `a %= 360` (the C++
remainder, which has the sign of `a`), `if (a < 0) a += 360`, then by the quadrant
the table index (`uint8_t`) and the flag `negative`. -/
def sinfpIndex (a : Int) : Nat × Bool :=
  let a1 := toInt16 (Int.tmod a 360)
  let a2 := if a1 < 0 then toInt16 (a1 + 360) else a1
  if a2 ≥ 0 ∧ a2 ≤ 90 then (toUInt8 a2, false)
  else if a2 > 90 ∧ a2 ≤ 180 then (toUInt8 (180 - a2), false)
  else if a2 > 180 ∧ a2 ≤ 270 then (toUInt8 (a2 - 180), true)
  else (toUInt8 (360 - a2), true)

/-- The function `sinfp(int16_t a)`, reading the table passed as `table` (the global
`FP_SIN_TABLE` in the source): `result = table[index]`, returned negated when
`negative`. A read past the end of the table is undefined behaviour in the source and
is `none` here. -/
def sinfp (table : List Fixed15_16) (a : Int) : Option Fixed15_16 :=
  let ix := sinfpIndex a
  table[ix.1]?.map fun result => if ix.2 then Fixed15_16.neg result else result

/-- The function `cosfp(int16_t a)`: `sinfp(90 - a)`, the `int` argument converted to
`int16_t`. -/
def cosfp (table : List Fixed15_16) (a : Int) : Option Fixed15_16 :=
  sinfp table (toInt16 (90 - a))

/-! ## Textures (textures.hpp) -/

/-- The constant `TEX_LOG2_SIZE = 6`. -/
def TEX_LOG2_SIZE : Nat := 6

/-- The constant `TEX_SIZE = (1 << TEX_LOG2_SIZE)`, a `uint8_t`. -/
def TEX_SIZE : Nat := toUInt8 (1 * 2 ^ TEX_LOG2_SIZE)

/-- The constant `TEX_SIZE_FP = Fixed15_16(TEX_SIZE)`. -/
def TEX_SIZE_FP : Fixed15_16 := Fixed15_16.ofInt TEX_SIZE

/-- The constant `TEX_MASK = TEX_SIZE - 1`, a `uint8_t`. -/
def TEX_MASK : Nat := toUInt8 ((TEX_SIZE : Int) - 1)

/-- The struct `TextureFileHeader`: four `uint32_t` fields. -/
structure TextureFileHeader where
  magic : Nat
  version : Nat
  tex_count : Nat
  reserved : Nat
deriving DecidableEq, Repr

/-- The blob `textures_xip_blob` as far as `getTextureData` reads it: the header at
its start and, in `offset_array`, the `uint32_t` words that follow the header. -/
structure TextureBlob where
  header : TextureFileHeader
  offset_array : List Nat
deriving DecidableEq, Repr

/-- A `const uint16_t*` returned by `getTextureData`: `nullptr`, or the address
`textures_xip_blob + offset`, `offset` counted in bytes. -/
inductive TexturePtr where
  | null : TexturePtr
  | blobPlus (offset : Nat) : TexturePtr
deriving DecidableEq, Repr

/-- A blob whose offset table has one entry for each of its `tex_count` textures. -/
def TextureBlob.WellFormed (blob : TextureBlob) : Prop :=
  blob.offset_array.length = blob.header.tex_count

instance (blob : TextureBlob) : Decidable blob.WellFormed :=
  inferInstanceAs (Decidable (_ = _))

/-- The method `TextureManager::getTextureData(uint8_t texIndex)`: `nullptr` when
`texIndex >= header->tex_count`, else `textures_xip_blob + offset_array_addr[texIndex]`.
A read past the words of `offset_array` is `none`. -/
def TextureManager.getTextureData (blob : TextureBlob) (texIndex : Nat) :
    Option TexturePtr :=
  if texIndex ≥ blob.header.tex_count then some TexturePtr.null
  else blob.offset_array[texIndex]?.map TexturePtr.blobPlus

/-! ## `MapView` and `PlayerData` (map_data.hpp) -/

/-- The struct `PlayerData`. -/
structure PlayerData where
  pos_x : Fixed15_16
  pos_y : Fixed15_16
  dir_x : Fixed15_16
  dir_y : Fixed15_16
deriving DecidableEq, Repr

/-- The struct `MapView`: `width` and `height` are `uint8_t`, `tile_data` points
to the column-major tile bytes. -/
structure MapView where
  width : Nat
  height : Nat
  tile_data : List Nat
deriving DecidableEq, Repr

namespace MapView

/-- The method `getTileUnchecked(uint8_t x, uint8_t y)`: `tile_data[y + height * x]`.
A read past the end of the tile bytes is undefined behaviour in the source and is
`none` here. -/
def getTileUnchecked (m : MapView) (x y : Nat) : Option Nat :=
  m.tile_data[y + m.height * x]?

/-- The index `y + height * x` that `getTileUnchecked` reads (column-major). -/
def tileIndex (m : MapView) (x y : Nat) : Nat := y + m.height * x

/-- The method `getTile(uint8_t x, uint8_t y)`: 0 when `x >= width || y >= height`,
else `getTileUnchecked(x, y)`. -/
def getTile (m : MapView) (x y : Nat) : Option Nat :=
  if x ≥ m.width ∨ y ≥ m.height then some 0 else m.getTileUnchecked x y

/-- A view as `createMapView` builds it from a valid blob: both sides are bytes and
`tile_data` holds `width * height` tiles. -/
def WellFormed (m : MapView) : Prop :=
  m.width < 256 ∧ m.height < 256 ∧ m.tile_data.length = m.width * m.height

/-- The outer ring of tiles is entirely non-zero. -/
def ClosedBorder (m : MapView) : Prop :=
  ∀ x, x < m.width → ∀ y, y < m.height →
    (x = 0 ∨ x + 1 = m.width ∨ y = 0 ∨ y + 1 = m.height) → m.getTileUnchecked x y ≠ some 0

instance (m : MapView) : Decidable m.WellFormed := inferInstanceAs (Decidable (_ ∧ _ ∧ _))

instance (m : MapView) : Decidable m.ClosedBorder :=
  inferInstanceAs (Decidable (∀ x, x < m.width → ∀ y, y < m.height → _))

end MapView

/-! ## The DDA of `main` (pico-raycaster.cpp, lines 87 to 140) -/

/-- The per-column locals of `main` that the DDA reads and writes: `map_x`, `map_y`
(`int16_t`), the side and delta distances, and `step_x`, `step_y` (`int8_t`). -/
structure RayState where
  map_x : Int
  map_y : Int
  side_dist_x : Fixed15_16
  side_dist_y : Fixed15_16
  delta_dist_x : Fixed15_16
  delta_dist_y : Fixed15_16
  step_x : Int
  step_y : Int
deriving DecidableEq, Repr

/-- What the DDA loop leaves behind: the locals, the local `side` (`uint8_t`, first
assigned in the loop body), and in `probes` the `(map_x, map_y)` of every
`getTileUnchecked(map_x, map_y)` call of the loop, in order, one for each iteration. -/
structure DdaResult where
  state : RayState
  side : Nat
  probes : List (Int × Int)
deriving DecidableEq, Repr

open Fixed15_16 in
/-- The initialiser of `delta_dist_x` / `delta_dist_y`:
`(ray_dir == 0) ? Fixed15_16::fromRaw(INT32_MAX) : abs(1 / ray_dir)`. -/
def deltaDist (ray_dir : Fixed15_16) : Option Fixed15_16 :=
  if ray_dir.eqInt 0 then some (fromRaw INT32_MAX) else (intDiv 1 ray_dir).map abs

open Fixed15_16 in
/-- The DDA setup, lines 87 to 120: the starting cell, the delta distances, and by
the sign of each ray component the step and the first side distance. -/
def ddaSetup (player_data : PlayerData) (ray_dir_x ray_dir_y : Fixed15_16) :
    Option RayState := do
  let map_x := player_data.pos_x.toInt
  let map_y := player_data.pos_y.toInt
  let delta_dist_x ← deltaDist ray_dir_x
  let delta_dist_y ← deltaDist ray_dir_y
  let sx : Int × Fixed15_16 :=
    if ray_dir_x.ltInt 0 then
      (-1, mul (subInt player_data.pos_x map_x) delta_dist_x)
    else
      (1, mul (intSub (toInt16 (map_x + 1)) player_data.pos_x) delta_dist_x)
  let sy : Int × Fixed15_16 :=
    if ray_dir_y.ltInt 0 then
      (-1, mul (subInt player_data.pos_y map_y) delta_dist_y)
    else
      (1, mul (intSub (toInt16 (map_y + 1)) player_data.pos_y) delta_dist_y)
  pure
    { map_x := map_x, map_y := map_y,
      side_dist_x := sx.2, side_dist_y := sy.2,
      delta_dist_x := delta_dist_x, delta_dist_y := delta_dist_y,
      step_x := sx.1, step_y := sy.1 }

open Fixed15_16 in
/-- The first statement of the loop body, lines 124 to 132: advance the X axis when
`side_dist_x < side_dist_y`, else the Y axis; the second component is `side`. -/
def ddaStep (s : RayState) : RayState × Nat :=
  if s.side_dist_x.lt s.side_dist_y then
    ({ s with side_dist_x := add s.side_dist_x s.delta_dist_x,
              map_x := toInt16 (s.map_x + s.step_x) }, 0)
  else
    ({ s with side_dist_y := add s.side_dist_y s.delta_dist_y,
              map_y := toInt16 (s.map_y + s.step_y) }, 1)

/-- The loop `while (hit == 0)`, lines 123 to 140, run for at most `fuel` iterations:
each iteration steps, reads the tile at the new cell (the `int16_t` coordinates are
converted to the `uint8_t` parameters) and stops when it is non-zero. `none` when
the fuel runs out or a read leaves the tile bytes. -/
def ddaLoop (m : MapView) : Nat → RayState → Option DdaResult
  | 0, _ => none
  | fuel + 1, s =>
    let r := ddaStep s
    match m.getTileUnchecked (toUInt8 r.1.map_x) (toUInt8 r.1.map_y) with
    | none => none
    | some tile =>
      if tile > 0 then
        some { state := r.1, side := r.2, probes := [(r.1.map_x, r.1.map_y)] }
      else
        (ddaLoop m fuel r.1).map fun res =>
          { res with probes := (r.1.map_x, r.1.map_y) :: res.probes }

/-- The setup followed by the loop: lines 87 to 140 for one ray. -/
def castRay (m : MapView) (player_data : PlayerData) (ray_dir_x ray_dir_y : Fixed15_16)
    (fuel : Nat) : Option DdaResult :=
  (ddaSetup player_data ray_dir_x ray_dir_y).bind (ddaLoop m fuel)

/-! ## Constants and per-column computations of `main` (pico-raycaster.cpp) -/

/-- The constant `SCREEN_WIDTH = 160`. -/
def SCREEN_WIDTH : Nat := 160

/-- The constant `SCREEN_HEIGHT = 128`. -/
def SCREEN_HEIGHT : Nat := 128

/-- The constant `MOVE_STEP = 0.05_fp`: the literal is cast to `float`, and the
`float` nearest to 0.05 is 13421773 / 2^28. -/
def MOVE_STEP : Fixed15_16 := Fixed15_16.ofFloat 13421773 268435456

/-- The constant `FOV_SCALE = 0.66667_fp`: the `float` nearest to 0.66667 is
11184867 / 2^24. -/
def FOV_SCALE : Fixed15_16 := Fixed15_16.ofFloat 11184867 16777216

/-- The constant `rosin = sinfp(2)`; the lookup is in bounds, so the default is not
used. -/
def rosin : Fixed15_16 := (sinfp FP_SIN_TABLE 2).getD (Fixed15_16.fromRaw 0)

/-- The constant `rocos = cosfp(2)`. -/
def rocos : Fixed15_16 := (cosfp FP_SIN_TABLE 2).getD (Fixed15_16.fromRaw 0)

/-- The state that `main` keeps across iterations: `player_data` and the camera
plane `plane_x`, `plane_y`. -/
structure GameState where
  player_data : PlayerData
  plane_x : Fixed15_16
  plane_y : Fixed15_16
deriving DecidableEq, Repr

open Fixed15_16 in
/-- The state before the main loop, lines 66 to 73:
`plane_x = -player_data.dir_y * FOV_SCALE`, `plane_y = player_data.dir_x * FOV_SCALE`. -/
def initialState (player_data : PlayerData) : GameState :=
  { player_data := player_data,
    plane_x := mul (neg player_data.dir_y) FOV_SCALE,
    plane_y := mul player_data.dir_x FOV_SCALE }

open Fixed15_16 in
/-- Line 82: `camera_x = (2 * Fixed15_16(current_screen_x) / Fixed15_16(SCREEN_WIDTH)) - 1`. -/
def cameraX (current_screen_x : Nat) : Option Fixed15_16 :=
  (div (intMul 2 (ofInt current_screen_x)) (ofInt SCREEN_WIDTH)).map fun q => subInt q 1

open Fixed15_16 in
/-- Lines 142 to 149: `wall_dist` is `side_dist_x - delta_dist_x` when `side == 0`,
else `side_dist_y - delta_dist_y`. -/
def wallDist (r : DdaResult) : Fixed15_16 :=
  if r.side = 0 then sub r.state.side_dist_x r.state.delta_dist_x
  else sub r.state.side_dist_y r.state.delta_dist_y

/-- What one column computes up to line 149: the ray, the DDA result and
`wall_dist`. -/
structure ColumnCast where
  ray_dir_x : Fixed15_16
  ray_dir_y : Fixed15_16
  dda : DdaResult
  wall_dist : Fixed15_16
deriving DecidableEq, Repr

open Fixed15_16 in
/-- Lines 82 to 149 for the screen column `current_screen_x`: the camera offset, the
ray direction `dir + plane * camera_x`, the DDA and the wall distance. -/
def castColumn (m : MapView) (g : GameState) (current_screen_x : Nat) (fuel : Nat) :
    Option ColumnCast := do
  let camera_x ← cameraX current_screen_x
  let ray_dir_x := add g.player_data.dir_x (mul g.plane_x camera_x)
  let ray_dir_y := add g.player_data.dir_y (mul g.plane_y camera_x)
  let r ← castRay m g.player_data ray_dir_x ray_dir_y fuel
  pure { ray_dir_x := ray_dir_x, ray_dir_y := ray_dir_y, dda := r, wall_dist := wallDist r }

open Fixed15_16 in
/-- Line 154: `line_height = (SCREEN_HEIGHT / wall_dist).toInt()`, an `int16_t`. -/
def lineHeight (wall_dist : Fixed15_16) : Option Int :=
  (intDiv SCREEN_HEIGHT wall_dist).map toInt

open Fixed15_16 in
/-- Line 181: `step = TEX_SIZE_FP / Fixed15_16(line_height)`. -/
def texStep (line_height : Int) : Option Fixed15_16 :=
  div TEX_SIZE_FP (ofInt line_height)

open Fixed15_16 in
/-- Lines 163 to 168: the position where the wall was hit,
`pos_y + wall_dist * ray_dir_y` when `side == 0`, else `pos_x + wall_dist * ray_dir_x`. -/
def wallX (player_data : PlayerData) (side : Nat) (wall_dist ray_dir_x ray_dir_y : Fixed15_16) :
    Fixed15_16 :=
  if side = 0 then add player_data.pos_y (mul wall_dist ray_dir_y)
  else add player_data.pos_x (mul wall_dist ray_dir_x)

open Fixed15_16 in
/-- The value `(fractional(wall_x) << TEX_LOG2_SIZE).toInt()` of lines 170 to 173. -/
def rawTexCoord (wall_x : Fixed15_16) : Int :=
  (shl (fractional wall_x) TEX_LOG2_SIZE).toInt

open Fixed15_16 in
/-- Lines 170 to 178: `tex_x_coord`, mirrored to `TEX_SIZE - tex_x_coord - 1` when
`(side == 0 && ray_dir_x > 0) || (side == 1 && ray_dir_y < 0)`. -/
def texXCoord (side : Nat) (ray_dir_x ray_dir_y wall_x : Fixed15_16) : Int :=
  let tex_x_coord := rawTexCoord wall_x
  if (side = 0 ∧ ray_dir_x.gtInt 0 = true) ∨ (side = 1 ∧ ray_dir_y.ltInt 0 = true) then
    toInt16 ((TEX_SIZE : Int) - tex_x_coord - 1)
  else tex_x_coord

/-! ## Drawing one column (pico-raycaster.cpp, lines 154 to 216) -/

/-- Lines 156 and 157: `draw_start = (-line_height >> 1) + (SCREEN_HEIGHT >> 1)`, an
`int16_t`, set to 0 when negative. -/
def drawStart (line_height : Int) : Int :=
  let draw_start := toInt16 (((-line_height) >>> (1 : Nat)) + ((SCREEN_HEIGHT : Int) >>> (1 : Nat)))
  if draw_start < 0 then 0 else draw_start

/-- Lines 159 and 160: `draw_end = (line_height >> 1) + (SCREEN_HEIGHT >> 1)`, an
`int16_t`, set to `SCREEN_HEIGHT - 1` when `draw_end >= SCREEN_HEIGHT`. -/
def drawEnd (line_height : Int) : Int :=
  let draw_end := toInt16 ((line_height >>> (1 : Nat)) + ((SCREEN_HEIGHT : Int) >>> (1 : Nat)))
  if draw_end ≥ SCREEN_HEIGHT then toInt16 ((SCREEN_HEIGHT : Int) - 1) else draw_end

/-- Line 183: `wall_top_coord = (SCREEN_HEIGHT - line_height) >> 1`, an `int16_t`. -/
def wallTopCoord (line_height : Int) : Int :=
  toInt16 (((SCREEN_HEIGHT : Int) - line_height) >>> (1 : Nat))

/-- Line 186: `tex_pos = (draw_start - wall_top_coord) * step`, the `int` difference
converted to the `int16_t` operand of the mixed product. -/
def texPosStart (line_height : Int) (step : Fixed15_16) : Fixed15_16 :=
  Fixed15_16.intMul (toInt16 (drawStart line_height - wallTopCoord line_height)) step

/-- Line 190: `tex_index = tile - 1`, a `uint8_t`. -/
def texIndex (tile : Nat) : Nat := toUInt8 ((tile : Int) - 1)

/-- The operator `&` on two `int` operands: the bitwise and of the two's-complement
bit patterns. -/
def landInt (a b : Int) : Int := toInt32 (Int.ofNat (toUInt32 a &&& toUInt32 b))

/-- Line 204: `tex_y_coord = tex_pos.toInt() & TEX_MASK`, an `int16_t`. -/
def texYCoord (tex_pos : Fixed15_16) : Int := toInt16 (landInt tex_pos.toInt TEX_MASK)

/-- The read `tex_column[i]` for `tex_column = &tex_data_start[tex_x_coord * TEX_SIZE]`:
the 16-bit cell `tex_x_coord * TEX_SIZE + i` places after `tex_data_start`. `cells`
gives the 16-bit cell at a byte offset into `textures_xip_blob`, `none` where the blob
has no texel; a read through `nullptr` or before the pointer is `none`. -/
def texColumnRead (cells : Nat → Option Nat) (tex_data_start : TexturePtr)
    (tex_x_coord i : Int) : Option Nat :=
  match tex_data_start with
  | TexturePtr.null => none
  | TexturePtr.blobPlus offset =>
    if 0 ≤ tex_x_coord * (TEX_SIZE : Int) + i then
      cells (offset + 2 * (tex_x_coord * (TEX_SIZE : Int) + i).toNat)
    else none

/-- The loop of lines 203 to 216 for `n` more rows from row `y`: the texel row from
`tex_pos`, `tex_pos += step`, the texel of the base column, replaced by the texel of
the shaded column when `side == 1`, written to `ray_column[y]`. `none` when a texel
read fails or `y` is past the end of `ray_column`. -/
def scanRows (cells : Nat → Option Nat) (tex_data_start tex_data_start_shaded : TexturePtr)
    (tex_x_coord : Int) (side : Nat) (step : Fixed15_16) :
    Nat → Nat → Fixed15_16 → List Nat → Option (List Nat)
  | 0, _, _, ray_column => some ray_column
  | n + 1, y, tex_pos, ray_column =>
    match texColumnRead cells tex_data_start tex_x_coord (texYCoord tex_pos) with
    | none => none
    | some base =>
      match (if side = 1 then
          texColumnRead cells tex_data_start_shaded tex_x_coord (texYCoord tex_pos)
        else some base) with
      | none => none
      | some color =>
        if y < ray_column.length then
          scanRows cells tex_data_start tex_data_start_shaded tex_x_coord side step
            n (y + 1) (Fixed15_16.add tex_pos step) (ray_column.set y color)
        else none

/-- The value of `tex_pos` at the start of the `k`-th iteration of the scan loop. -/
def texPosAt (tex_pos step : Fixed15_16) : Nat → Fixed15_16
  | 0 => tex_pos
  | k + 1 => texPosAt (Fixed15_16.add tex_pos step) step k

/-- Lines 181 to 216 for a hit on a tile of value `tile`: the step, the draw range,
the two texture pointers and the scan from `size_t y = draw_start` while
`y < draw_end` into a column buffer of `SCREEN_HEIGHT` zeros. -/
def renderColumn (blob : TextureBlob) (cells : Nat → Option Nat) (tile side : Nat)
    (tex_x_coord line_height : Int) : Option (List Nat) :=
  match texStep line_height,
    TextureManager.getTextureData blob (texIndex tile),
    TextureManager.getTextureData blob (toUInt8 ((texIndex tile : Int) + 1)) with
  | some step, some tex_data_start, some tex_data_start_shaded =>
    scanRows cells tex_data_start tex_data_start_shaded tex_x_coord side step
      (toUInt32 (drawEnd line_height) - toUInt32 (drawStart line_height))
      (toUInt32 (drawStart line_height))
      (texPosStart line_height step) (List.replicate SCREEN_HEIGHT 0)
  | _, _, _ => none

/-! ## Movement and turning (pico-raycaster.cpp, lines 244 to 286) -/

open Fixed15_16 in
/-- The branch `vry_reading < 1000`, lines 248 to 253: the X probe and move, then the
Y probe (at the new `pos_x`) and move. A probe that reads past the tile bytes is
`none`. -/
def moveForward (m : MapView) (p : PlayerData) : Option PlayerData := do
  let tx ← m.getTileUnchecked
    (toUInt8 (add p.pos_x (mul (mulInt p.dir_x 10) MOVE_STEP)).toInt) (toUInt8 p.pos_y.toInt)
  let p1 := if tx = 0 then { p with pos_x := add p.pos_x (mul p.dir_x MOVE_STEP) } else p
  let ty ← m.getTileUnchecked
    (toUInt8 p1.pos_x.toInt) (toUInt8 (add p1.pos_y (mul (mulInt p1.dir_y 10) MOVE_STEP)).toInt)
  pure (if ty = 0 then { p1 with pos_y := add p1.pos_y (mul p1.dir_y MOVE_STEP) } else p1)

open Fixed15_16 in
/-- The branch `vry_reading > 3000`, lines 256 to 261: as `moveForward` with the
offsets subtracted. -/
def moveBackward (m : MapView) (p : PlayerData) : Option PlayerData := do
  let tx ← m.getTileUnchecked
    (toUInt8 (sub p.pos_x (mul (mulInt p.dir_x 10) MOVE_STEP)).toInt) (toUInt8 p.pos_y.toInt)
  let p1 := if tx = 0 then { p with pos_x := sub p.pos_x (mul p.dir_x MOVE_STEP) } else p
  let ty ← m.getTileUnchecked
    (toUInt8 p1.pos_x.toInt) (toUInt8 (sub p1.pos_y (mul (mulInt p1.dir_y 10) MOVE_STEP)).toInt)
  pure (if ty = 0 then { p1 with pos_y := sub p1.pos_y (mul p1.dir_y MOVE_STEP) } else p1)

open Fixed15_16 in
/-- The branch `vrx_reading > 3000`, lines 265 to 273: rotate `dir` and recompute the
plane from the new `dir`. -/
def turnHigh (g : GameState) : GameState :=
  let oldDirX := g.player_data.dir_x
  let oldDirY := g.player_data.dir_y
  let dir_x := sub (mul oldDirX rocos) (mul oldDirY rosin)
  let dir_y := add (mul oldDirX rosin) (mul oldDirY rocos)
  { player_data := { g.player_data with dir_x := dir_x, dir_y := dir_y },
    plane_x := mul (neg dir_y) FOV_SCALE,
    plane_y := mul dir_x FOV_SCALE }

open Fixed15_16 in
/-- The branch `vrx_reading < 1000`, lines 276 to 284: the rotation by the opposite
angle, and the plane recomputed from the new `dir`. -/
def turnLow (g : GameState) : GameState :=
  let oldDirX := g.player_data.dir_x
  let oldDirY := g.player_data.dir_y
  let dir_x := add (mul oldDirX rocos) (mul oldDirY rosin)
  let dir_y := add (mul (neg oldDirX) rosin) (mul oldDirY rocos)
  { player_data := { g.player_data with dir_x := dir_x, dir_y := dir_y },
    plane_x := mul (neg dir_y) FOV_SCALE,
    plane_y := mul dir_x FOV_SCALE }

/-- The move part of the input update, lines 247 to 262: forward when
`vry_reading < 1000`, backward when `vry_reading > 3000`. -/
def applyMove (m : MapView) (vry_reading : Nat) (p : PlayerData) : Option PlayerData :=
  if vry_reading < 1000 then moveForward m p
  else if vry_reading > 3000 then moveBackward m p
  else some p

/-- The turn part of the input update, lines 264 to 285, by `vrx_reading`. -/
def applyTurn (vrx_reading : Nat) (g : GameState) : GameState :=
  if vrx_reading > 3000 then turnHigh g
  else if vrx_reading < 1000 then turnLow g
  else g

/-- The body of `if (get_absolute_time() - last_move_time > INPUT_DELAY)`, lines 247
to 285, for the two ADC readings: the move by `vry_reading`, then the turn by
`vrx_reading`. -/
def applyInput (m : MapView) (vrx_reading vry_reading : Nat) (g : GameState) :
    Option GameState :=
  (applyMove m vry_reading g.player_data).map fun p =>
    applyTurn vrx_reading { g with player_data := p }

/-- The state after a sequence of input updates, each given as
`(vrx_reading, vry_reading)`. -/
def applyInputs (m : MapView) : List (Nat × Nat) → GameState → Option GameState
  | [], g => some g
  | (vrx, vry) :: rest, g => (applyInput m vrx vry g).bind (applyInputs m rest)

open Fixed15_16 in
/-- The camera plane is `(-dir_y, dir_x) * FOV_SCALE`. -/
def PlaneInv (g : GameState) : Prop :=
  g.plane_x = mul (neg g.player_data.dir_y) FOV_SCALE ∧
  g.plane_y = mul g.player_data.dir_x FOV_SCALE

/-- The distance, in cells, from the current cell to the border the X step heads
for (a measure for the termination proof). -/
def borderDistX (m : MapView) (s : RayState) : Int :=
  if s.step_x = 1 then (m.width : Int) - 1 - s.map_x else s.map_x

/-- The distance, in cells, from the current cell to the border the Y step heads
for. -/
def borderDistY (m : MapView) (s : RayState) : Int :=
  if s.step_y = 1 then (m.height : Int) - 1 - s.map_y else s.map_y

/-! ## Fixtures: the 3x3 room -/

/-- A 3x3 grid whose eight border tiles are 1 and whose centre tile is 0. -/
def room3 : MapView := { width := 3, height := 3, tile_data := [1, 1, 1, 1, 0, 1, 1, 1, 1] }

/-- A player at the centre (1.5, 1.5) of the open cell of `room3`, facing +X. -/
def centrePlayer : PlayerData :=
  { pos_x := Fixed15_16.ofFloat 3 2, pos_y := Fixed15_16.ofFloat 3 2,
    dir_x := Fixed15_16.ofInt 1, dir_y := Fixed15_16.ofInt 0 }


/-- The locals after the setup for `centrePlayer` and the diagonal ray (1, 1): both
side distances are 0.5. -/
def tieState : RayState :=
  { map_x := 1, map_y := 1,
    side_dist_x := Fixed15_16.ofFloat 1 2, side_dist_y := Fixed15_16.ofFloat 1 2,
    delta_dist_x := Fixed15_16.ofInt 1, delta_dist_y := Fixed15_16.ofInt 1,
    step_x := 1, step_y := 1 }

/-- The player at the centre (1.5, 1.5) of the open cell of `room3`, facing
`(dx, dy)`. -/
def centreFacing (dx dy : Int) : PlayerData :=
  { pos_x := Fixed15_16.ofFloat 3 2, pos_y := Fixed15_16.ofFloat 3 2,
    dir_x := Fixed15_16.ofInt dx, dir_y := Fixed15_16.ofInt dy }

/-- A player in the open cell of `room3` at x = 1.0 and y = 2 - 1/65536, one raw
unit below the grid line y = 2, facing +X. -/
def edgePlayer : PlayerData :=
  { pos_x := Fixed15_16.ofInt 1, pos_y := Fixed15_16.fromRaw 131071,
    dir_x := Fixed15_16.ofInt 1, dir_y := Fixed15_16.ofInt 0 }

/-- A texture blob with three textures of 64 x 64 16-bit cells behind a 16-byte
header and a 12-byte offset table. -/
def blob3 : TextureBlob :=
  { header := { magic := 0x30504958, version := 1, tex_count := 3, reserved := 0 },
    offset_array := [28, 8220, 16412] }

/-- A 4x3 grid with a closed border and the two open cells (1, 1) and (2, 1). -/
def corridor : MapView :=
  { width := 4, height := 3, tile_data := [1, 1, 1, 1, 0, 1, 1, 0, 1, 1, 1, 1] }

/-- A player at the centre (1.5, 1.5) of cell (1, 1) with direction (1, 1). -/
def diagPlayer : PlayerData :=
  { pos_x := Fixed15_16.ofFloat 3 2, pos_y := Fixed15_16.ofFloat 3 2,
    dir_x := Fixed15_16.ofInt 1, dir_y := Fixed15_16.ofInt 1 }

/-- The 16-bit cells behind `blob3`: three textures of 64 x 64 cells from byte offset
28; the cell at an even byte offset `b` holds `b / 2`. -/
def cells3 (b : Nat) : Option Nat :=
  if 28 ≤ b ∧ b < 28 + 3 * 8192 ∧ b % 2 = 0 then some (b / 2) else none

/-- A 4x6 grid with a closed border and the open cells (1, 1) .. (2, 4). -/
def hall : MapView :=
  { width := 4, height := 6,
    tile_data := [1, 1, 1, 1, 1, 1, 1, 0, 0, 0, 0, 1, 1, 0, 0, 0, 0, 1, 1, 1, 1, 1, 1, 1] }

/-! ## Lemmas on the machine-integer reductions -/

theorem toInt32_of_isInt32 {x : Int} (h : IsInt32 x) : toInt32 x = x := by
  unfold IsInt32 at h
  simp only [toInt32]
  split_ifs <;> omega

theorem toInt64_of_isInt64 {x : Int} (h : IsInt64 x) : toInt64 x = x := by
  unfold IsInt64 at h
  simp only [toInt64]
  split_ifs <;> omega

theorem toInt16_of_isInt16 {x : Int} (h : IsInt16 x) : toInt16 x = x := by
  unfold IsInt16 at h
  simp only [toInt16]
  split_ifs <;> omega

theorem isInt32_toInt32 (x : Int) : IsInt32 (toInt32 x) := by
  unfold IsInt32
  simp only [toInt32]
  split_ifs <;> omega

theorem toInt32_sub_emod (x : Int) : (toInt32 x - x) % 4294967296 = 0 := by
  simp only [toInt32]
  split_ifs <;> omega

theorem toInt32_emod (x : Int) : toInt32 x % 4294967296 = x % 4294967296 := by
  simp only [toInt32]
  split_ifs <;> omega

theorem shiftRight_frac (x : Int) : x >>> Fixed15_16.FRAC_SHIFT = x / 65536 := by
  rw [Int.shiftRight_eq_div_pow]
  rfl

/-- Bounds on a product from bounds on the absolute values of the factors. -/
theorem mul_bounds {a b A B : Int} (ha1 : -A ≤ a) (ha2 : a ≤ A) (hb1 : -B ≤ b) (hb2 : b ≤ B) :
    -(A * B) ≤ a * b ∧ a * b ≤ A * B := by
  have h := abs_mul a b
  have h1 : |a| ≤ A := abs_le.mpr ⟨ha1, ha2⟩
  have h2 : |b| ≤ B := abs_le.mpr ⟨hb1, hb2⟩
  have h3 : |a * b| ≤ A * B := by
    rw [h]
    exact mul_le_mul h1 h2 (abs_nonneg b) (le_trans (abs_nonneg a) h1)
  exact abs_le.mp h3

/-- Masking a 32-bit unsigned value with `0xFFFF0000` clears its low 16 bits. -/
theorem land_high_mask (u : Nat) (h : u < 4294967296) :
    u &&& 0xFFFF0000 = u / 65536 * 65536 := by
  apply Nat.eq_of_testBit_eq
  intro i
  have hm : (0xFFFF0000 : Nat) = (2 ^ 16 - 1) <<< 16 := by decide
  have hd : u / 65536 * 65536 = 2 ^ 16 * (u >>> 16) := by
    rw [Nat.shiftRight_eq_div_pow, Nat.mul_comm]
    norm_num
  rw [Nat.testBit_and, hm, Nat.testBit_shiftLeft, Nat.testBit_two_pow_sub_one, hd,
    Nat.testBit_mul_pow_two, Nat.testBit_shiftRight]
  by_cases h16 : 16 ≤ i
  · have e : 16 + (i - 16) = i := by omega
    rw [e]
    by_cases h32 : i < 32
    · have : i - 16 < 16 := by omega
      simp [h16, this]
    · have hu : u.testBit i = false := by
        apply Nat.testBit_lt_two_pow
        calc u < 2 ^ 32 := h
          _ ≤ 2 ^ i := Nat.pow_le_pow_right (by decide) (by omega)
      simp [hu]
  · simp [h16]

theorem toUInt32_lt (x : Int) : toUInt32 x < 4294967296 := by
  unfold toUInt32
  omega

theorem floor_eq (val : Fixed15_16) :
    floor val
      = Fixed15_16.fromRaw (toInt32 (Int.ofNat (toUInt32 val.toRaw / 65536 * 65536))) := by
  unfold floor
  rw [land_high_mask _ (toUInt32_lt _)]

theorem toRaw_fromRaw (r : Int) : (Fixed15_16.fromRaw r).toRaw = r := rfl

theorem toRaw_mk (r : Int) : (Fixed15_16.mk r).toRaw = r := rfl

theorem cast_floor_scaled (v : Int) :
    Int.ofNat (toUInt32 v / 65536 * 65536) = v % 4294967296 / 65536 * 65536 := by
  have h0 : (0 : Int) ≤ v % 4294967296 := by omega
  rw [toUInt32]
  simp only [Int.ofNat_eq_coe]
  push_cast
  rw [Int.toNat_of_nonneg h0]

theorem floor_raw (x : Fixed15_16) (hx : x.Valid) :
    (floor x).toRaw = x.toRaw - x.toRaw % 65536 := by
  obtain ⟨v⟩ := x
  have hv : -2147483648 ≤ v ∧ v ≤ 2147483647 := hx
  rw [floor_eq, toRaw_fromRaw, cast_floor_scaled, toRaw_mk]
  simp only [toInt32]
  split_ifs <;> omega

theorem sub_toRaw (a b : Fixed15_16) :
    (Fixed15_16.sub a b).toRaw = toInt32 (a.toRaw - b.toRaw) := rfl

theorem add_toRaw (a b : Fixed15_16) :
    (Fixed15_16.add a b).toRaw = toInt32 (a.toRaw + b.toRaw) := rfl

theorem eq_of_toRaw_eq {a b : Fixed15_16} (h : a.toRaw = b.toRaw) : a = b := by
  cases a
  cases b
  rw [toRaw_mk, toRaw_mk] at h
  rw [h]

theorem fractional_raw (x : Fixed15_16) (hx : x.Valid) :
    (fractional x).toRaw = x.toRaw % 65536 := by
  have hf := floor_raw x hx
  have hv : -2147483648 ≤ x.toRaw ∧ x.toRaw ≤ 2147483647 := hx
  rw [fractional, sub_toRaw, hf]
  generalize x.toRaw = v at *
  simp only [toInt32]
  split_ifs <;> omega

theorem floor_of_small (x : Fixed15_16) (h0 : 0 ≤ x.toRaw) (h1 : x.toRaw < 65536) :
    floor x = Fixed15_16.ofInt 0 := by
  have hx : x.Valid := by
    have : -2147483648 ≤ x.toRaw ∧ x.toRaw ≤ 2147483647 := by constructor <;> omega
    exact this
  have hf := floor_raw x hx
  apply eq_of_toRaw_eq
  have hz : (Fixed15_16.ofInt 0).toRaw = 0 := by decide
  rw [hf, hz]
  omega

theorem two_pow_frac : (2 : Int) ^ Fixed15_16.FRAC_SHIFT = 65536 := by decide

theorem ofInt_raw (n : Int) (hn : IsInt16 n) : (Fixed15_16.ofInt n).toRaw = n * 65536 := by
  unfold IsInt16 at hn
  rw [Fixed15_16.ofInt, toRaw_mk, two_pow_frac]
  simp only [toInt32]
  split_ifs <;> omega

theorem mul_toRaw (a b : Fixed15_16) :
    (Fixed15_16.mul a b).toRaw
      = toInt32 (toInt64 (a.toRaw * b.toRaw) >>> Fixed15_16.FRAC_SHIFT) := rfl

theorem isInt64_mul (a b : Fixed15_16) (ha : a.Valid) (hb : b.Valid) :
    IsInt64 (a.toRaw * b.toRaw) := by
  have ha2 : -2147483648 ≤ a.toRaw ∧ a.toRaw ≤ 2147483647 := ha
  have hb2 : -2147483648 ≤ b.toRaw ∧ b.toRaw ≤ 2147483647 := hb
  have h := @mul_bounds a.toRaw b.toRaw 2147483648 2147483648
    (by omega) (by omega) (by omega) (by omega)
  unfold IsInt64
  constructor <;> omega

/-- The raw value of a product, for operands that are genuine `int32_t`. -/
theorem mul_raw (a b : Fixed15_16) (ha : a.Valid) (hb : b.Valid) :
    (Fixed15_16.mul a b).toRaw = toInt32 (a.toRaw * b.toRaw / 65536) := by
  rw [mul_toRaw, toInt64_of_isInt64 (isInt64_mul a b ha hb), shiftRight_frac]

theorem tdiv_abs_le (x b : Int) : -(x.natAbs : Int) ≤ Int.tdiv x b ∧ Int.tdiv x b ≤ x.natAbs := by
  have h := Int.natAbs_tdiv x b
  have h2 : (x.natAbs).div (b.natAbs) ≤ x.natAbs := Nat.div_le_self _ _
  omega

theorem isInt64_shl (a : Fixed15_16) (ha : a.Valid) : IsInt64 (a.toRaw * 65536) := by
  have ha2 : -2147483648 ≤ a.toRaw ∧ a.toRaw ≤ 2147483647 := ha
  unfold IsInt64
  constructor <;> omega

theorem isInt64_quot (a : Fixed15_16) (ha : a.Valid) (d : Int) :
    IsInt64 (Int.tdiv (a.toRaw * 65536) d) := by
  have ha2 : -2147483648 ≤ a.toRaw ∧ a.toRaw ≤ 2147483647 := ha
  have h := tdiv_abs_le (a.toRaw * 65536) d
  unfold IsInt64
  constructor <;> omega

/-- The result of a division by a non-zero divisor. -/
theorem div_eq (a b : Fixed15_16) (ha : a.Valid) (hb0 : b.toRaw ≠ 0) :
    Fixed15_16.div a b
      = some (Fixed15_16.fromRaw (toInt32 (Int.tdiv (a.toRaw * 65536) b.toRaw))) := by
  have hb0v : ¬ b.value_ = 0 := hb0
  rw [Fixed15_16.div, if_neg hb0v, two_pow_frac]
  have e1 : toInt64 (a.value_ * 65536) = a.value_ * 65536 :=
    toInt64_of_isInt64 (isInt64_shl a ha)
  have e2 : toInt64 (Int.tdiv (a.value_ * 65536) b.value_)
      = Int.tdiv (a.value_ * 65536) b.value_ :=
    toInt64_of_isInt64 (isInt64_quot a ha _)
  rw [e1, e2]
  rfl

/-! ## Lemmas on the grid and the DDA loop -/

theorem index_lt (w h x y : Nat) (hx : x < w) (hy : y < h) : y + h * x < w * h := by
  have h1 : h * (x + 1) ≤ h * w := Nat.mul_le_mul_left h hx
  rw [Nat.mul_add, Nat.mul_one] at h1
  rw [Nat.mul_comm w h]
  omega

theorem getTileUnchecked_isSome (m : MapView) (hwf : m.WellFormed) (x y : Nat)
    (hx : x < m.width) (hy : y < m.height) : ∃ t, m.getTileUnchecked x y = some t := by
  obtain ⟨_, _, hlen⟩ := hwf
  have hi : y + m.height * x < m.tile_data.length := by
    rw [hlen]
    exact index_lt _ _ _ _ hx hy
  exact ⟨m.tile_data[y + m.height * x], List.getElem?_eq_getElem hi⟩

theorem toUInt8_of_byte (z : Int) (h0 : 0 ≤ z) (h1 : z < 256) : toUInt8 z = z.toNat := by
  unfold toUInt8
  omega

theorem ddaStep_step_x (s : RayState) : (ddaStep s).1.step_x = s.step_x := by
  unfold ddaStep
  split <;> rfl

theorem ddaStep_step_y (s : RayState) : (ddaStep s).1.step_y = s.step_y := by
  unfold ddaStep
  split <;> rfl

theorem ddaStep_cell (s : RayState) :
    ((ddaStep s).1.map_x = toInt16 (s.map_x + s.step_x) ∧ (ddaStep s).1.map_y = s.map_y) ∨
    ((ddaStep s).1.map_x = s.map_x ∧ (ddaStep s).1.map_y = toInt16 (s.map_y + s.step_y)) := by
  unfold ddaStep
  split
  · left; exact ⟨rfl, rfl⟩
  · right; exact ⟨rfl, rfl⟩

/-- From a cell strictly inside a closed-border grid the loop stops within
`borderDistX + borderDistY - 1` iterations, and every cell it reads is in the grid. -/
theorem ddaLoop_terminates (m : MapView) (hwf : m.WellFormed) (hb : m.ClosedBorder) :
    ∀ (fuel : Nat) (s : RayState),
      (1 ≤ s.map_x ∧ s.map_x + 2 ≤ m.width) → (1 ≤ s.map_y ∧ s.map_y + 2 ≤ m.height) →
      (s.step_x = 1 ∨ s.step_x = -1) → (s.step_y = 1 ∨ s.step_y = -1) →
      borderDistX m s + borderDistY m s ≤ fuel + 1 →
      ∃ r, ddaLoop m fuel s = some r ∧
        (r.probes.length : Int) + 1 ≤ borderDistX m s + borderDistY m s ∧
        ∀ p ∈ r.probes, 0 ≤ p.1 ∧ p.1 < m.width ∧ 0 ≤ p.2 ∧ p.2 < m.height := by
  intro fuel
  induction fuel with
  | zero =>
    intro s hx hy hsx hsy hf
    exfalso
    unfold borderDistX borderDistY at hf
    split_ifs at hf <;> omega
  | succ fuel ih =>
    intro s hx hy hsx hsy hf
    have hw8 := hwf.1
    have hh8 := hwf.2.1
    have hstx := ddaStep_step_x s
    have hsty := ddaStep_step_y s
    have hcell := ddaStep_cell s
    -- the new cell is inside the grid
    have hnew : (0 ≤ (ddaStep s).1.map_x ∧ (ddaStep s).1.map_x < m.width) ∧
        (0 ≤ (ddaStep s).1.map_y ∧ (ddaStep s).1.map_y < m.height) ∧
        borderDistX m (ddaStep s).1 + borderDistY m (ddaStep s).1 + 1
          = borderDistX m s + borderDistY m s := by
      unfold borderDistX borderDistY
      rw [hstx, hsty]
      rcases hcell with ⟨h1, h2⟩ | ⟨h1, h2⟩
      · rw [h1, h2]
        simp only [toInt16]
        rcases hsx with h | h <;> split_ifs <;> omega
      · rw [h1, h2]
        simp only [toInt16]
        rcases hsy with h | h <;> split_ifs <;> omega
    obtain ⟨hnx, hny, hdist⟩ := hnew
    have hux := toUInt8_of_byte _ hnx.1 (by omega)
    have huy := toUInt8_of_byte _ hny.1 (by omega)
    obtain ⟨t, ht⟩ := getTileUnchecked_isSome m hwf (ddaStep s).1.map_x.toNat
      (ddaStep s).1.map_y.toNat (by omega) (by omega)
    rw [ddaLoop]
    simp only [hux, huy, ht]
    have hprobe : 0 ≤ ((ddaStep s).1.map_x, (ddaStep s).1.map_y).1 ∧
        ((ddaStep s).1.map_x, (ddaStep s).1.map_y).1 < m.width ∧
        0 ≤ ((ddaStep s).1.map_x, (ddaStep s).1.map_y).2 ∧
        ((ddaStep s).1.map_x, (ddaStep s).1.map_y).2 < m.height :=
      ⟨hnx.1, hnx.2, hny.1, hny.2⟩
    by_cases htile : t > 0
    · rw [if_pos htile]
      refine ⟨_, rfl, ?_, ?_⟩
      · have hbx : 1 ≤ borderDistX m s := by
          unfold borderDistX
          split_ifs <;> omega
        have hby : 1 ≤ borderDistY m s := by
          unfold borderDistY
          split_ifs <;> omega
        simp only [List.length_singleton]
        omega
      · intro p hp
        rw [List.mem_singleton] at hp
        rw [hp]
        exact hprobe
    · rw [if_neg htile]
      have ht0 : t = 0 := by omega
      rw [ht0] at ht
      -- a zero tile is not on the border
      have hnb := hb (ddaStep s).1.map_x.toNat (by omega) (ddaStep s).1.map_y.toNat (by omega)
      have hint : ¬ ((ddaStep s).1.map_x.toNat = 0 ∨
          (ddaStep s).1.map_x.toNat + 1 = m.width ∨ (ddaStep s).1.map_y.toNat = 0 ∨
          (ddaStep s).1.map_y.toNat + 1 = m.height) := fun hbor => hnb hbor ht
      obtain ⟨r, hr, hlen, hall⟩ := ih (ddaStep s).1 (by omega) (by omega)
        (by rw [hstx]; exact hsx) (by rw [hsty]; exact hsy) (by omega)
      refine ⟨_, by rw [hr]; rfl, ?_, ?_⟩
      · simp only [List.length_cons]
        push_cast
        omega
      · intro p hp
        rw [List.mem_cons] at hp
        rcases hp with hp | hp
        · rw [hp]
          exact hprobe
        · exact hall p hp

theorem deltaDist_isSome (ray_dir : Fixed15_16) : ∃ d, deltaDist ray_dir = some d := by
  unfold deltaDist
  by_cases h : ray_dir.eqInt 0 = true
  · rw [if_pos h]
    exact ⟨_, rfl⟩
  · rw [if_neg h]
    have hne : ¬ ray_dir.value_ = 0 := by
      intro h0
      apply h
      unfold Fixed15_16.eqInt
      rw [h0]
      decide
    unfold Fixed15_16.intDiv Fixed15_16.div
    rw [if_neg hne]
    exact ⟨_, rfl⟩

/-- The setup always succeeds; it starts in the cell of the player and steps by one
cell on each axis. -/
theorem ddaSetup_spec (p : PlayerData) (rx ry : Fixed15_16) :
    ∃ s, ddaSetup p rx ry = some s ∧ s.map_x = p.pos_x.toInt ∧ s.map_y = p.pos_y.toInt ∧
      (s.step_x = 1 ∨ s.step_x = -1) ∧ (s.step_y = 1 ∨ s.step_y = -1) := by
  obtain ⟨dx, hdx⟩ := deltaDist_isSome rx
  obtain ⟨dy, hdy⟩ := deltaDist_isSome ry
  unfold ddaSetup
  rw [hdx, hdy]
  refine ⟨_, rfl, rfl, rfl, ?_, ?_⟩
  · by_cases h : rx.ltInt 0 = true
    · right; simp only [h, if_true]
    · left; simp only [h]; rfl
  · by_cases h : ry.ltInt 0 = true
    · right; simp only [h, if_true]
    · left; simp only [h]; rfl

/-! ## Lemmas on the sine lookup -/

theorem tmod_360 (a : Int) :
    Int.tmod a 360 = if 0 ≤ a then a % 360 else -((-a) % 360) := by
  have h := Int.tmod_add_tdiv a 360
  by_cases h0 : 0 ≤ a
  · rw [if_pos h0]
    rw [Int.tdiv_eq_ediv h0 (by decide)] at h
    omega
  · rw [if_neg h0]
    have e : a = -(-a) := by omega
    have hq : Int.tdiv a 360 = -((-a) / 360) := by
      rw [e, Int.neg_tdiv, Int.tdiv_eq_ediv (by omega) (by decide), ← e]
    rw [hq] at h
    omega

/-- The angle after `a %= 360; if (a < 0) a += 360` is the representative of `a`
modulo 360 in [0, 360). -/
theorem normalise_angle (a : Int) :
    (if toInt16 (Int.tmod a 360) < 0 then toInt16 (toInt16 (Int.tmod a 360) + 360)
      else toInt16 (Int.tmod a 360)) = a % 360 := by
  rw [tmod_360]
  simp only [toInt16]
  split_ifs <;> omega

/-- The table index and sign that `sinfp` uses, by the quadrant of `a % 360`. -/
theorem sinfpIndex_spec (a : Int) :
    sinfpIndex a =
      if a % 360 ≤ 90 then ((a % 360).toNat, false)
      else if a % 360 ≤ 180 then ((180 - a % 360).toNat, false)
      else if a % 360 ≤ 270 then ((a % 360 - 180).toNat, true)
      else ((360 - a % 360).toNat, true) := by
  have hn := normalise_angle a
  have h0 : 0 ≤ a % 360 := by omega
  have h1 : a % 360 < 360 := by omega
  unfold sinfpIndex
  simp only [hn]
  generalize a % 360 = n at *
  by_cases c1 : n ≤ 90
  · rw [if_pos ⟨h0, c1⟩, if_pos c1, toUInt8_of_byte n h0 (by omega)]
  · rw [if_neg (fun h => c1 h.2), if_neg c1]
    by_cases c2 : n ≤ 180
    · rw [if_pos ⟨by omega, c2⟩, if_pos c2, toUInt8_of_byte _ (by omega) (by omega)]
    · rw [if_neg (fun h => c2 h.2), if_neg c2]
      by_cases c3 : n ≤ 270
      · rw [if_pos ⟨by omega, c3⟩, if_pos c3, toUInt8_of_byte _ (by omega) (by omega)]
      · rw [if_neg (fun h => c3 h.2), if_neg c3, toUInt8_of_byte _ (by omega) (by omega)]

theorem sinfpIndex_le (a : Int) : (sinfpIndex a).1 ≤ 90 := by
  rw [sinfpIndex_spec a]
  have h0 : 0 ≤ a % 360 := by omega
  have h1 : a % 360 < 360 := by omega
  split_ifs <;> simp only <;> omega

theorem sinfp_eq (table : List Fixed15_16) (a : Int) (i : Nat) (b : Bool)
    (h : sinfpIndex a = (i, b)) :
    sinfp table a = table[i]?.map fun result => if b then Fixed15_16.neg result else result := by
  unfold sinfp
  rw [h]

theorem neg_toRaw (a : Fixed15_16) : (Fixed15_16.neg a).toRaw = toInt32 (-a.toRaw) := rfl

theorem neg_neg_of_valid (t : Fixed15_16) (ht : t.Valid) :
    Fixed15_16.neg (Fixed15_16.neg t) = t := by
  have hv : -2147483648 ≤ t.toRaw ∧ t.toRaw ≤ 2147483647 := ht
  apply eq_of_toRaw_eq
  rw [neg_toRaw, neg_toRaw]
  generalize t.toRaw = v at *
  simp only [toInt32]
  split_ifs <;> omega

/-! ## Lemmas on the column computations -/

theorem ofInt_raw_zero : (Fixed15_16.ofInt 0).toRaw = 0 := by decide

theorem shl_toRaw (a : Fixed15_16) (n : Nat) :
    (Fixed15_16.shl a n).toRaw = toInt32 (a.toRaw * 2 ^ n) := rfl

theorem toInt_eq (x : Fixed15_16) : x.toInt = toInt16 (x.toRaw / 65536) := by
  rw [Fixed15_16.toInt, shiftRight_frac]
  rfl

/-- The texture column before mirroring lies in [0, 63]. -/
theorem rawTexCoord_range (wall_x : Fixed15_16) (hx : wall_x.Valid) :
    0 ≤ rawTexCoord wall_x ∧ rawTexCoord wall_x ≤ 63 := by
  have hf := fractional_raw wall_x hx
  rw [rawTexCoord, toInt_eq, shl_toRaw, hf]
  have e : (2 : Int) ^ TEX_LOG2_SIZE = 64 := by decide
  rw [e]
  generalize wall_x.toRaw = v
  simp only [toInt32, toInt16]
  split_ifs <;> omega

theorem gtInt_zero (x : Fixed15_16) : x.gtInt 0 = true ↔ 0 < x.toRaw := by
  unfold Fixed15_16.gtInt
  have e : toInt32 (0 * 2 ^ Fixed15_16.FRAC_SHIFT) = 0 := by decide
  rw [e, decide_eq_true_iff]
  exact Iff.rfl

theorem ltInt_zero (x : Fixed15_16) : x.ltInt 0 = true ↔ x.toRaw < 0 := by
  unfold Fixed15_16.ltInt
  have e : toInt32 (0 * 2 ^ Fixed15_16.FRAC_SHIFT) = 0 := by decide
  rw [e, decide_eq_true_iff]
  exact Iff.rfl

theorem eqInt_zero (x : Fixed15_16) : x.eqInt 0 = true ↔ x.toRaw = 0 := by
  unfold Fixed15_16.eqInt
  have e : toInt32 (0 * 2 ^ Fixed15_16.FRAC_SHIFT) = 0 := by decide
  rw [e, decide_eq_true_iff]
  exact Iff.rfl

/-- The quotient `Fixed15_16(SCREEN_HEIGHT) / wall_dist` for a positive divisor. -/
theorem lineHeight_eq (wall_dist : Fixed15_16) (hpos : 0 < wall_dist.toRaw) :
    lineHeight wall_dist
      = some (toInt16 (toInt32 (549755813888 / wall_dist.toRaw) / 65536)) := by
  have h128 : (Fixed15_16.ofInt SCREEN_HEIGHT).toRaw = 8388608 := by decide
  have hv : (Fixed15_16.ofInt SCREEN_HEIGHT).Valid := by decide
  have hne : wall_dist.toRaw ≠ 0 := by omega
  rw [lineHeight, Fixed15_16.intDiv, div_eq _ _ hv hne, h128]
  have e : (8388608 : Int) * 65536 = 549755813888 := by decide
  rw [e, Int.tdiv_eq_ediv (by decide) (by omega)]
  rw [Option.map_some', toInt_eq, toRaw_fromRaw]

/-! ## Lemmas on a cast that hits on its first step -/

theorem ddaLoop_first_hit (m : MapView) (s : RayState) (fuel tile : Nat)
    (hread : m.getTileUnchecked (toUInt8 (ddaStep s).1.map_x) (toUInt8 (ddaStep s).1.map_y)
      = some tile)
    (ht : 0 < tile) :
    ddaLoop m (fuel + 1) s = some
      { state := (ddaStep s).1, side := (ddaStep s).2,
        probes := [((ddaStep s).1.map_x, (ddaStep s).1.map_y)] } := by
  rw [ddaLoop]
  simp only [hread, ht, if_true]

theorem castRay_eq (m : MapView) (p : PlayerData) (rx ry : Fixed15_16) (fuel : Nat)
    (s : RayState) (hs : ddaSetup p rx ry = some s) :
    castRay m p rx ry fuel = ddaLoop m fuel s := by
  unfold castRay
  rw [hs]
  rfl

theorem castColumn_eq (m : MapView) (g : GameState) (x fuel : Nat) (cam : Fixed15_16)
    (r : DdaResult) (hc : cameraX x = some cam)
    (hr : castRay m g.player_data (Fixed15_16.add g.player_data.dir_x (Fixed15_16.mul g.plane_x cam))
      (Fixed15_16.add g.player_data.dir_y (Fixed15_16.mul g.plane_y cam)) fuel = some r) :
    castColumn m g x fuel = some
      { ray_dir_x := Fixed15_16.add g.player_data.dir_x (Fixed15_16.mul g.plane_x cam),
        ray_dir_y := Fixed15_16.add g.player_data.dir_y (Fixed15_16.mul g.plane_y cam),
        dda := r, wall_dist := wallDist r } := by
  unfold castColumn
  simp only [hc, hr, Option.bind_eq_bind, Option.some_bind, pure]

/-- A cast whose first step lands on a non-zero tile. -/
theorem castColumn_first_hit (m : MapView) (g : GameState) (x fuel : Nat)
    (cam : Fixed15_16) (s : RayState) (tile : Nat) (hc : cameraX x = some cam)
    (hs : ddaSetup g.player_data
      (Fixed15_16.add g.player_data.dir_x (Fixed15_16.mul g.plane_x cam))
      (Fixed15_16.add g.player_data.dir_y (Fixed15_16.mul g.plane_y cam)) = some s)
    (hread : m.getTileUnchecked (toUInt8 (ddaStep s).1.map_x) (toUInt8 (ddaStep s).1.map_y)
      = some tile)
    (ht : 0 < tile) :
    castColumn m g x (fuel + 1) = some
      { ray_dir_x := Fixed15_16.add g.player_data.dir_x (Fixed15_16.mul g.plane_x cam),
        ray_dir_y := Fixed15_16.add g.player_data.dir_y (Fixed15_16.mul g.plane_y cam),
        dda := { state := (ddaStep s).1, side := (ddaStep s).2,
                 probes := [((ddaStep s).1.map_x, (ddaStep s).1.map_y)] },
        wall_dist := wallDist
          ({ state := (ddaStep s).1, side := (ddaStep s).2,
             probes := [((ddaStep s).1.map_x, (ddaStep s).1.map_y)] } : DdaResult) } := by
  apply castColumn_eq m g x (fuel + 1) cam _ hc
  rw [castRay_eq m _ _ _ _ s hs]
  exact ddaLoop_first_hit m s fuel tile hread ht

/-- A border tile of a well-formed grid with a closed border is read as a non-zero
value. -/
theorem border_tile_pos (m : MapView) (hwf : m.WellFormed) (hb : m.ClosedBorder) (x y : Nat)
    (hx : x < m.width) (hy : y < m.height)
    (hbor : x = 0 ∨ x + 1 = m.width ∨ y = 0 ∨ y + 1 = m.height) :
    ∃ t, m.getTileUnchecked x y = some t ∧ 0 < t := by
  obtain ⟨t, ht⟩ := getTileUnchecked_isSome m hwf x y hx hy
  refine ⟨t, ht, ?_⟩
  have hne := hb x hx y hy hbor
  rw [ht] at hne
  by_contra hz
  apply hne
  have : t = 0 := by omega
  rw [this]

/-! ## Lemmas on the zero-component sentinel -/

theorem deltaDist_zero (ray_dir : Fixed15_16) (h : ray_dir.toRaw = 0) :
    deltaDist ray_dir = some (Fixed15_16.fromRaw INT32_MAX) := by
  unfold deltaDist
  rw [if_pos ((eqInt_zero ray_dir).mpr h)]

/-! ## Lemmas on movement and turning -/

theorem moveForward_dir (m : MapView) (p q : PlayerData) (h : moveForward m p = some q) :
    q.dir_x = p.dir_x ∧ q.dir_y = p.dir_y := by
  unfold moveForward at h
  simp only [Option.bind_eq_bind, Option.bind_eq_some, pure] at h
  obtain ⟨tx, _, ty, _, h⟩ := h
  cases h
  split_ifs <;> exact ⟨rfl, rfl⟩

theorem moveBackward_dir (m : MapView) (p q : PlayerData) (h : moveBackward m p = some q) :
    q.dir_x = p.dir_x ∧ q.dir_y = p.dir_y := by
  unfold moveBackward at h
  simp only [Option.bind_eq_bind, Option.bind_eq_some, pure] at h
  obtain ⟨tx, _, ty, _, h⟩ := h
  cases h
  split_ifs <;> exact ⟨rfl, rfl⟩

/-- What one input update does to `dir` and the plane: without a turn both are kept,
with a turn the plane is recomputed from the new `dir`. -/
theorem applyInput_plane (m : MapView) (vrx vry : Nat) (g g1 : GameState)
    (h : applyInput m vrx vry g = some g1) :
    ((1000 ≤ vrx ∧ vrx ≤ 3000) →
      g1.player_data.dir_x = g.player_data.dir_x ∧ g1.player_data.dir_y = g.player_data.dir_y ∧
      g1.plane_x = g.plane_x ∧ g1.plane_y = g.plane_y) ∧
    ((vrx > 3000 ∨ vrx < 1000) → PlaneInv g1) := by
  unfold applyInput at h
  rw [Option.map_eq_some'] at h
  obtain ⟨p, hp, h⟩ := h
  have hdir : p.dir_x = g.player_data.dir_x ∧ p.dir_y = g.player_data.dir_y := by
    unfold applyMove at hp
    split_ifs at hp
    · exact moveForward_dir m _ _ hp
    · exact moveBackward_dir m _ _ hp
    · cases hp
      exact ⟨rfl, rfl⟩
  rw [← h]
  unfold applyTurn
  constructor
  · intro hr
    rw [if_neg (by omega), if_neg (by omega)]
    exact ⟨hdir.1, hdir.2, rfl, rfl⟩
  · intro hr
    by_cases c : vrx > 3000
    · rw [if_pos c]
      exact ⟨rfl, rfl⟩
    · rw [if_neg c, if_pos (by omega)]
      exact ⟨rfl, rfl⟩

theorem applyInput_inv (m : MapView) (vrx vry : Nat) (g g1 : GameState)
    (h : applyInput m vrx vry g = some g1) (hg : PlaneInv g) : PlaneInv g1 := by
  have hp := applyInput_plane m vrx vry g g1 h
  by_cases c : 1000 ≤ vrx ∧ vrx ≤ 3000
  · obtain ⟨h1, h2, h3, h4⟩ := hp.1 c
    unfold PlaneInv at hg ⊢
    rw [h1, h2, h3, h4]
    exact hg
  · exact hp.2 (by omega)

theorem applyInputs_inv (m : MapView) (inputs : List (Nat × Nat)) :
    ∀ g g1 : GameState, applyInputs m inputs g = some g1 → PlaneInv g → PlaneInv g1 := by
  induction inputs with
  | nil =>
    intro g g1 h hg
    unfold applyInputs at h
    cases h
    exact hg
  | cons i rest ih =>
    intro g g1 h hg
    obtain ⟨vrx, vry⟩ := i
    unfold applyInputs at h
    cases hstep : applyInput m vrx vry g with
    | none =>
      rw [hstep] at h
      cases h
    | some g2 =>
      rw [hstep] at h
      exact ih g2 g1 h (applyInput_inv m vrx vry g g2 hstep hg)

/-! ## Lemmas on the reciprocal and the camera offset -/

theorem ofInt_one_raw : (Fixed15_16.ofInt 1).toRaw = 65536 := by decide

/-- The quotient `1 / r` for a non-zero divisor. -/
theorem intDiv_one_eq (r : Fixed15_16) (hr : r.toRaw ≠ 0) :
    Fixed15_16.intDiv 1 r
      = some (Fixed15_16.fromRaw (toInt32 (Int.tdiv 4294967296 r.toRaw))) := by
  have e : (65536 : Int) * 65536 = 4294967296 := by decide
  rw [Fixed15_16.intDiv, div_eq _ _ (by decide) hr, ofInt_one_raw, e]

theorem abs_toRaw (val : Fixed15_16) :
    (abs val).toRaw = if val.toRaw < 0 then toInt32 (-val.toRaw) else val.toRaw := by
  unfold abs
  by_cases h : val.toRaw < 0
  · rw [if_pos ((ltInt_zero val).mpr h), if_pos h, toRaw_fromRaw]
  · have hn : ¬ val.ltInt 0 = true := fun hc => h ((ltInt_zero val).mp hc)
    rw [if_neg hn, if_neg h]

theorem deltaDist_eq (r : Fixed15_16) (hr : r.toRaw ≠ 0) :
    deltaDist r
      = some (abs (Fixed15_16.fromRaw (toInt32 (Int.tdiv 4294967296 r.toRaw)))) := by
  have hn : ¬ r.eqInt 0 = true := fun hc => hr ((eqInt_zero r).mp hc)
  rw [deltaDist, if_neg hn, intDiv_one_eq r hr]
  rfl

theorem tdiv_pos_neg (a b : Int) (ha : 0 ≤ a) (hb : b < 0) :
    Int.tdiv a b = -(a / (-b)) := by
  have e : b = -(-b) := by omega
  rw [e, Int.tdiv_neg, Int.tdiv_eq_ediv ha (by omega), ← e]

theorem intMul_toRaw (a : Int) (b : Fixed15_16) :
    (Fixed15_16.intMul a b).toRaw = toInt32 (a * b.toRaw) := rfl

theorem intMul_valid (a : Int) (b : Fixed15_16) : (Fixed15_16.intMul a b).Valid :=
  isInt32_toInt32 _

theorem subInt_toRaw (a : Fixed15_16) (b : Int) :
    (Fixed15_16.subInt a b).toRaw = toInt32 (a.toRaw - (Fixed15_16.ofInt b).toRaw) := rfl

theorem ofInt_width_raw : (Fixed15_16.ofInt SCREEN_WIDTH).toRaw = 10485760 := by decide

theorem twice_column_raw (x : Nat) (hx : x < 160) :
    (Fixed15_16.intMul 2 (Fixed15_16.ofInt x)).toRaw = (x : Int) * 131072 := by
  have hxr : (Fixed15_16.ofInt x).toRaw = (x : Int) * 65536 :=
    ofInt_raw x (by unfold IsInt16; omega)
  rw [intMul_toRaw, hxr]
  have hz : 0 ≤ (x : Int) ∧ (x : Int) < 160 := by omega
  generalize (x : Int) = z at hz ⊢
  simp only [toInt32]
  split_ifs <;> omega

theorem camera_quotient (z : Int) : z * 131072 * 65536 / 10485760 = z * 65536 / 80 := by
  have e2 : z * 131072 * 65536 = z * 65536 * 131072 := by ring
  have e3 : (10485760 : Int) = 80 * 131072 := by norm_num
  rw [e2, e3, Int.mul_ediv_mul_of_pos_left _ _ (by norm_num)]

/-- The raw value of `camera_x` for a screen column. -/
theorem cameraX_eq (x : Nat) (hx : x < 160) :
    cameraX x = some (Fixed15_16.fromRaw ((x : Int) * 65536 / 80 - 65536)) := by
  have hm := twice_column_raw x hx
  have hmv := intMul_valid 2 (Fixed15_16.ofInt x)
  have hne : (Fixed15_16.ofInt SCREEN_WIDTH).toRaw ≠ 0 := by
    rw [ofInt_width_raw]
    omega
  rw [cameraX, div_eq _ _ hmv hne, hm, ofInt_width_raw, Option.map_some']
  refine congrArg some (eq_of_toRaw_eq ?_)
  rewrite [subInt_toRaw, toRaw_fromRaw, ofInt_one_raw, toRaw_fromRaw,
    Int.tdiv_eq_ediv (by omega) (by omega), camera_quotient]
  have hz : 0 ≤ (x : Int) ∧ (x : Int) < 160 := by omega
  generalize (x : Int) = z at hz ⊢
  simp only [toInt32]
  split_ifs <;> omega

/-! ## Lemmas on the draw range and the texel row -/

theorem shiftRight_one (x : Int) : x >>> (1 : Nat) = x / 2 := by
  rw [Int.shiftRight_eq_div_pow]
  rfl

/-- The draw range for a non-negative `line_height`. -/
theorem drawRange_of_nonneg (line_height : Int) (h0 : 0 ≤ line_height)
    (h1 : line_height ≤ 32767) :
    drawStart line_height = max 0 (64 - (line_height + 1) / 2) ∧
    drawEnd line_height = min 127 (64 + line_height / 2) := by
  have hs : (SCREEN_HEIGHT : Int) = 128 := rfl
  unfold drawStart drawEnd
  simp only [shiftRight_one, hs, toInt16]
  constructor
  · split_ifs <;> omega
  · split_ifs <;> omega

theorem toUInt32_of_nonneg (z : Int) (h0 : 0 ≤ z) (h1 : z < 4294967296) :
    toUInt32 z = z.toNat := by
  unfold toUInt32
  omega

theorem cast_mod_64 (a : Int) : Int.ofNat (toUInt32 a % 2 ^ 6) = a % 64 := by
  have h0 : (0 : Int) ≤ a % 4294967296 := by omega
  rw [toUInt32]
  simp only [Int.ofNat_eq_coe]
  push_cast
  rw [Int.toNat_of_nonneg h0]
  omega

/-- Masking with `TEX_MASK` is the remainder modulo 64. -/
theorem landInt_mask (a : Int) : landInt a (TEX_MASK : Int) = a % 64 := by
  have h63 : toUInt32 (TEX_MASK : Int) = 2 ^ 6 - 1 := by decide
  rw [landInt, h63, Nat.and_pow_two_sub_one_eq_mod, cast_mod_64]
  have hr : 0 ≤ a % 64 ∧ a % 64 < 64 := by omega
  generalize a % 64 = r at *
  simp only [toInt32]
  split_ifs <;> omega

theorem texYCoord_eq (tex_pos : Fixed15_16) : texYCoord tex_pos = tex_pos.toInt % 64 := by
  rw [texYCoord, landInt_mask]
  generalize tex_pos.toInt = a
  simp only [toInt16]
  split_ifs <;> omega

set_option maxRecDepth 20000 in
/-- With `line_height = -32768` the scan starts at row 16448, past the 128-entry
column buffer, and the first write is undefined. -/
theorem renderColumn_wrapped : renderColumn blob3 cells3 1 0 0 (-32768) = none := by
  rfl

/-! ## Lemmas on the collision probe -/

theorem texPosAt_succ (tex_pos step : Fixed15_16) (k : Nat) :
    texPosAt tex_pos step (k + 1) = texPosAt (Fixed15_16.add tex_pos step) step k := rfl

theorem texYCoord_range (tex_pos : Fixed15_16) :
    0 ≤ texYCoord tex_pos ∧ texYCoord tex_pos < 64 := by
  rw [texYCoord_eq]
  omega

/-- The scan loop over rows `y .. y + n - 1` of a buffer that holds them, when every
texel row of the sampled column can be read: the rows outside the range are kept and
row `y + k` holds the texel row of the `k`-th texture position, read from the shaded
texture when `side == 1`. -/
theorem scanRows_spec (cells : Nat → Option Nat) (t ts : TexturePtr) (txc : Int) (side : Nat)
    (step : Fixed15_16)
    (hr : ∀ i : Int, 0 ≤ i → i < 64 → ∃ v, texColumnRead cells t txc i = some v)
    (hs : side = 1 → ∀ i : Int, 0 ≤ i → i < 64 → ∃ v, texColumnRead cells ts txc i = some v) :
    ∀ (n y : Nat) (tex_pos : Fixed15_16) (col : List Nat), y + n ≤ col.length →
      ∃ out, scanRows cells t ts txc side step n y tex_pos col = some out ∧
        out.length = col.length ∧
        (∀ j, (j < y ∨ y + n ≤ j) → out[j]? = col[j]?) ∧
        (∀ k, k < n → ∃ v, out[y + k]? = some v ∧
          texColumnRead cells (if side = 1 then ts else t) txc
            (texYCoord (texPosAt tex_pos step k)) = some v) := by
  intro n
  induction n with
  | zero =>
    intro y tex_pos col _
    refine ⟨col, rfl, rfl, fun _ _ => rfl, ?_⟩
    intro k hk
    omega
  | succ n ih =>
    intro y tex_pos col hlen
    obtain ⟨h0, h1⟩ := texYCoord_range tex_pos
    obtain ⟨b, hb⟩ := hr _ h0 h1
    have hcolor : ∃ color,
        (if side = 1 then texColumnRead cells ts txc (texYCoord tex_pos) else some b)
          = some color ∧
        texColumnRead cells (if side = 1 then ts else t) txc (texYCoord tex_pos)
          = some color := by
      by_cases h : side = 1
      · obtain ⟨v, hv⟩ := hs h _ h0 h1
        exact ⟨v, by rw [if_pos h]; exact hv, by rw [if_pos h]; exact hv⟩
      · exact ⟨b, by rw [if_neg h], by rw [if_neg h]; exact hb⟩
    obtain ⟨color, hc1, hc2⟩ := hcolor
    have hy : y < col.length := by omega
    obtain ⟨out, ho, hl, hout, hin⟩ := ih (y + 1) (Fixed15_16.add tex_pos step)
      (col.set y color) (by rw [List.length_set]; omega)
    refine ⟨out, ?_, ?_, ?_, ?_⟩
    · rw [scanRows, hb]
      simp only [hc1, if_pos hy]
      exact ho
    · rw [hl, List.length_set]
    · intro j hj
      rw [hout j (by omega), List.getElem?_set_ne (by omega)]
    · intro k hk
      cases k with
      | zero =>
        refine ⟨color, ?_, hc2⟩
        rw [Nat.add_zero, hout y (by omega), List.getElem?_set_self hy]
      | succ k =>
        obtain ⟨v, hv1, hv2⟩ := hin k (by omega)
        refine ⟨v, ?_, ?_⟩
        · rw [← hv1]
          congr 1
          omega
        · rw [texPosAt_succ]
          exact hv2

theorem tex_size_cast : (TEX_SIZE : Int) = 64 := by decide

theorem texColumnRead_blob (cells : Nat → Option Nat) (off : Nat) (txc i : Int)
    (h : 0 ≤ txc * 64 + i) :
    texColumnRead cells (TexturePtr.blobPlus off) txc i
      = cells (off + 2 * (txc * 64 + i).toNat) := by
  rw [texColumnRead, tex_size_cast, if_pos h]

theorem texColumnRead_row (cells : Nat → Option Nat) (off : Nat) (txc : Int)
    (tex_pos : Fixed15_16) (h : 0 ≤ txc) :
    texColumnRead cells (TexturePtr.blobPlus off) txc (texYCoord tex_pos)
      = cells (off + 2 * (txc * 64 + texYCoord tex_pos).toNat) := by
  have hy := texYCoord_range tex_pos
  exact texColumnRead_blob cells off txc _ (by omega)

/-- The step `TEX_SIZE_FP / Fixed15_16(line_height)` for a positive `line_height`. -/
theorem texStep_eq (lh : Int) (h1 : 1 ≤ lh) (h2 : lh ≤ 32767) :
    texStep lh = some (Fixed15_16.fromRaw (4194304 / lh)) := by
  have hl : (Fixed15_16.ofInt lh).toRaw = lh * 65536 :=
    ofInt_raw lh (by unfold IsInt16; omega)
  have ht : TEX_SIZE_FP.toRaw = 4194304 := by decide
  have htv : TEX_SIZE_FP.Valid := by decide
  have hne : (Fixed15_16.ofInt lh).toRaw ≠ 0 := by
    rw [hl]
    omega
  have e : (4194304 : Int) * 65536 / (lh * 65536) = 4194304 / lh :=
    Int.mul_ediv_mul_of_pos_left _ _ (by norm_num)
  have hq0 : 0 ≤ 4194304 / lh := Int.ediv_nonneg (by norm_num) (by omega)
  have hq1 : 4194304 / lh ≤ 4194304 := Int.ediv_le_self _ (by norm_num)
  rw [texStep, div_eq _ _ htv hne, hl, ht, Int.tdiv_eq_ediv (by omega) (by omega), e]
  refine congrArg some (congrArg Fixed15_16.fromRaw ?_)
  generalize 4194304 / lh = q at hq0 hq1 ⊢
  simp only [toInt32]
  split_ifs <;> omega

theorem texIndex_eq (tile : Nat) (h : 1 ≤ tile ∧ tile ≤ 255) :
    texIndex tile = tile - 1 ∧ toUInt8 (((tile - 1 : Nat) : Int) + 1) = tile := by
  constructor
  · unfold texIndex toUInt8
    omega
  · unfold toUInt8
    omega

/-- The column of a wall with a positive `line_height`, when the textures of the struck
tile are present and their cells can be read: the rows outside
`[draw_start, draw_end)` keep the initial 0 and row `draw_start + k` holds the cell of
the `k`-th texture position, of texture `tile - 1`, or of texture `tile` when
`side == 1`. -/
theorem renderColumn_spec (blob : TextureBlob) (cells : Nat → Option Nat) (tile side : Nat)
    (txc lh : Int) (hblob : blob.WellFormed) (htile : 1 ≤ tile ∧ tile ≤ 255)
    (hlit : tile ≤ blob.header.tex_count) (hshade : side = 1 → tile < blob.header.tex_count)
    (hlh : 1 ≤ lh ∧ lh ≤ 32767) (htx : 0 ≤ txc ∧ txc ≤ 63)
    (hcells : ∀ (i off c : Nat), blob.offset_array[i]? = some off → c < 4096 →
      ∃ v, cells (off + 2 * c) = some v) :
    ∃ step col, texStep lh = some step ∧
      renderColumn blob cells tile side txc lh = some col ∧ col.length = SCREEN_HEIGHT ∧
      (∀ j : Nat, ((j : Int) < drawStart lh ∨ drawEnd lh ≤ (j : Int)) →
        col[j]? = (List.replicate SCREEN_HEIGHT 0)[j]?) ∧
      (∀ k : Nat, (k : Int) < drawEnd lh - drawStart lh →
        ∃ off v, blob.offset_array[if side = 1 then tile else tile - 1]? = some off ∧
          col[(drawStart lh).toNat + k]? = some v ∧
          cells (off + 2 * (txc * 64
            + texYCoord (texPosAt (texPosStart lh step) step k)).toNat) = some v) := by
  obtain ⟨hi1, hi2⟩ := texIndex_eq tile htile
  have hlen : blob.offset_array.length = blob.header.tex_count := hblob
  have hread : ∀ (i off : Nat), blob.offset_array[i]? = some off →
      ∀ r : Int, 0 ≤ r → r < 64 →
        ∃ v, texColumnRead cells (TexturePtr.blobPlus off) txc r = some v := by
    intro i off hoff r hr0 hr1
    rw [texColumnRead_blob cells off txc r (by omega)]
    exact hcells i off _ hoff (by omega)
  have h1lt : tile - 1 < blob.offset_array.length := by omega
  have hoff1 : blob.offset_array[tile - 1]? = some (blob.offset_array[tile - 1]) :=
    List.getElem?_eq_getElem h1lt
  have hg1 : TextureManager.getTextureData blob (tile - 1)
      = some (TexturePtr.blobPlus (blob.offset_array[tile - 1])) := by
    rw [TextureManager.getTextureData, if_neg (by omega), hoff1]
    rfl
  have hg2 : ∃ ts, TextureManager.getTextureData blob tile = some ts ∧
      (side = 1 → ∃ off2, ts = TexturePtr.blobPlus off2 ∧
        blob.offset_array[tile]? = some off2) := by
    by_cases hc : tile < blob.header.tex_count
    · have h2lt : tile < blob.offset_array.length := by omega
      have hoff2 : blob.offset_array[tile]? = some (blob.offset_array[tile]) :=
        List.getElem?_eq_getElem h2lt
      refine ⟨TexturePtr.blobPlus (blob.offset_array[tile]), ?_, fun _ => ⟨_, rfl, hoff2⟩⟩
      rw [TextureManager.getTextureData, if_neg (by omega), hoff2]
      rfl
    · refine ⟨TexturePtr.null, ?_, fun hs => absurd (hshade hs) hc⟩
      rw [TextureManager.getTextureData, if_pos (by omega)]
  obtain ⟨ts, hts, hts2⟩ := hg2
  obtain ⟨hds, hde⟩ := drawRange_of_nonneg lh (by omega) hlh.2
  have hds0 : 0 ≤ drawStart lh ∧ drawStart lh ≤ drawEnd lh ∧ drawEnd lh ≤ 127 := by
    rw [hds, hde]
    omega
  have hu1 : toUInt32 (drawStart lh) = (drawStart lh).toNat :=
    toUInt32_of_nonneg _ hds0.1 (by omega)
  have hu2 : toUInt32 (drawEnd lh) = (drawEnd lh).toNat :=
    toUInt32_of_nonneg _ (by omega) (by omega)
  have hsh : side = 1 → ∀ r : Int, 0 ≤ r → r < 64 →
      ∃ v, texColumnRead cells ts txc r = some v := by
    intro hs
    obtain ⟨off2, e2, ho2⟩ := hts2 hs
    rw [e2]
    exact hread tile off2 ho2
  obtain ⟨out, ho, hl, hout, hin⟩ := scanRows_spec cells
    (TexturePtr.blobPlus (blob.offset_array[tile - 1])) ts txc side (Fixed15_16.fromRaw (4194304 / lh))
    (hread _ _ hoff1) hsh
    ((drawEnd lh).toNat - (drawStart lh).toNat) (drawStart lh).toNat
    (texPosStart lh (Fixed15_16.fromRaw (4194304 / lh))) (List.replicate SCREEN_HEIGHT 0)
    (by rw [List.length_replicate]; unfold SCREEN_HEIGHT; omega)
  refine ⟨_, out, texStep_eq lh hlh.1 hlh.2, ?_, ?_, ?_, ?_⟩
  · rw [renderColumn, texStep_eq lh hlh.1 hlh.2, hi1, hi2, hg1, hts]
    simp only [hu1, hu2]
    exact ho
  · rw [hl, List.length_replicate]
  · intro j hj
    exact hout j (by omega)
  · intro k hk
    have hk2 : k < (drawEnd lh).toNat - (drawStart lh).toNat := by omega
    obtain ⟨v, hv1, hv2⟩ := hin k hk2
    by_cases hs : side = 1
    · obtain ⟨off2, e2, ho2⟩ := hts2 hs
      rw [if_pos hs, e2, texColumnRead_row _ _ _ _ htx.1] at hv2
      rw [if_pos hs]
      exact ⟨off2, v, ho2, hv1, hv2⟩
    · rw [if_neg hs, texColumnRead_row _ _ _ _ htx.1] at hv2
      rw [if_neg hs]
      exact ⟨_, v, hoff1, hv1, hv2⟩

/-- The raw texture position after `k` steps that do not wrap. -/
theorem texPosAt_raw (step : Fixed15_16) (hs : 0 ≤ step.toRaw) :
    ∀ (k : Nat) (tex_pos : Fixed15_16), 0 ≤ tex_pos.toRaw →
      tex_pos.toRaw + k * step.toRaw ≤ 2147483647 →
      (texPosAt tex_pos step k).toRaw = tex_pos.toRaw + k * step.toRaw := by
  intro k
  induction k with
  | zero =>
    intro tex_pos _ _
    simp [texPosAt]
  | succ k ih =>
    intro tex_pos h0 h1
    have hk : 0 ≤ (k : Int) * step.toRaw := Int.mul_nonneg (by omega) hs
    have e : ((k + 1 : Nat) : Int) * step.toRaw = (k : Int) * step.toRaw + step.toRaw := by
      push_cast
      ring
    rw [e] at h1 ⊢
    have ha : (Fixed15_16.add tex_pos step).toRaw = tex_pos.toRaw + step.toRaw := by
      rw [add_toRaw]
      generalize (k : Int) * step.toRaw = ks at hk h1
      generalize tex_pos.toRaw = a at h0 h1 ⊢
      generalize step.toRaw = s at hs h1 ⊢
      simp only [toInt32]
      split_ifs <;> omega
    rw [texPosAt_succ, ih (Fixed15_16.add tex_pos step) (by rw [ha]; omega)
      (by rw [ha]; omega), ha]
    omega

theorem cells3_readable (i off c : Nat) (h : blob3.offset_array[i]? = some off)
    (hc : c < 4096) : ∃ v, cells3 (off + 2 * c) = some v := by
  have hm : off ∈ blob3.offset_array := List.getElem?_mem h
  have hoff : off = 28 ∨ off = 8220 ∨ off = 16412 := by
    simpa [blob3] using hm
  refine ⟨(off + 2 * c) / 2, ?_⟩
  unfold cells3
  rw [if_pos (by omega)]

theorem wallTopCoord_eq (lh : Int) (h1 : 0 ≤ lh) (h2 : lh ≤ 32767) :
    wallTopCoord lh = (128 - lh) / 2 := by
  have hs : (SCREEN_HEIGHT : Int) = 128 := rfl
  unfold wallTopCoord
  simp only [shiftRight_one, hs, toInt16]
  split_ifs <;> omega

theorem texPosStart_zero (lh : Int) (step : Fixed15_16)
    (h : drawStart lh = wallTopCoord lh) : texPosStart lh step = Fixed15_16.ofInt 0 := by
  have e16 : toInt16 0 = 0 := by decide
  have e32 : toInt32 0 = 0 := by decide
  apply eq_of_toRaw_eq
  rw [texPosStart, intMul_toRaw, h, Int.sub_self, e16, Int.zero_mul, e32, ofInt_raw_zero]

/-- The integer part of the `k`-th texture position of an unmagnified wall. -/
theorem texPos_unmagnified (lh : Int) (h1 : 1 ≤ lh) (h2 : lh ≤ 128) (k : Nat)
    (hk : (k : Int) < lh) :
    0 ≤ (texPosAt (Fixed15_16.ofInt 0) (Fixed15_16.fromRaw (4194304 / lh)) k).toInt ∧
    (texPosAt (Fixed15_16.ofInt 0) (Fixed15_16.fromRaw (4194304 / lh)) k).toInt ≤ 63 ∧
    (texPosAt (Fixed15_16.ofInt 0) (Fixed15_16.fromRaw (4194304 / lh)) k).toInt
      ≤ (texPosAt (Fixed15_16.ofInt 0) (Fixed15_16.fromRaw (4194304 / lh)) (k + 1)).toInt := by
  have hs0 : (32768 : Int) ≤ 4194304 / lh := by
    rw [Int.le_ediv_iff_mul_le (by omega)]
    omega
  have hsl : 4194304 / lh * lh ≤ 4194304 := Int.ediv_mul_le _ (by omega)
  have hk1 : ((k : Int) + 1) * (4194304 / lh) ≤ lh * (4194304 / lh) :=
    Int.mul_le_mul_of_nonneg_right (by omega) (by omega)
  have hk0 : 0 ≤ (k : Int) * (4194304 / lh) := Int.mul_nonneg (by omega) (by omega)
  have e1 : ((k : Int) + 1) * (4194304 / lh) = (k : Int) * (4194304 / lh) + 4194304 / lh := by
    ring
  have e2 : lh * (4194304 / lh) = 4194304 / lh * lh := by ring
  have e3 : ((k + 1 : Nat) : Int) * (4194304 / lh)
      = (k : Int) * (4194304 / lh) + 4194304 / lh := by
    push_cast
    ring
  rw [e1, e2] at hk1
  have hr0 : (texPosAt (Fixed15_16.ofInt 0) (Fixed15_16.fromRaw (4194304 / lh)) k).toRaw
      = (k : Int) * (4194304 / lh) := by
    rw [texPosAt_raw _ (by rw [toRaw_fromRaw]; omega) k _ (by rw [ofInt_raw_zero])
      (by rw [ofInt_raw_zero, toRaw_fromRaw]; omega), ofInt_raw_zero, toRaw_fromRaw]
    omega
  have hr1 : (texPosAt (Fixed15_16.ofInt 0) (Fixed15_16.fromRaw (4194304 / lh)) (k + 1)).toRaw
      = (k : Int) * (4194304 / lh) + 4194304 / lh := by
    rw [texPosAt_raw _ (by rw [toRaw_fromRaw]; omega) (k + 1) _ (by rw [ofInt_raw_zero])
      (by rw [ofInt_raw_zero, toRaw_fromRaw, e3]; omega), ofInt_raw_zero, toRaw_fromRaw, e3]
    omega
  rw [toInt_eq, toInt_eq, hr0, hr1]
  generalize (k : Int) * (4194304 / lh) = ks at hk0 hk1 ⊢
  generalize 4194304 / lh = s at hs0 hsl hk1 ⊢
  simp only [toInt16]
  split_ifs <;> omega

/-! ## Fixed-point theorems -/

open Fixed15_16

/-- C3: for every integer `n` in the `int16_t` range, the integer constructor
stores `n << 16` (that is `n * 65536`) and `toInt` gives `n` back. -/
theorem ofInt_toInt_roundtrip (n : Int) (hn : IsInt16 n) :
    (ofInt n).toRaw = n * 65536 ∧ (ofInt n).toInt = n := by
  unfold IsInt16 at hn
  have hraw : (ofInt n).toRaw = n * 65536 := by
    rw [ofInt, toRaw_mk]
    simp only [toInt32, FRAC_SHIFT]
    split_ifs <;> omega
  refine ⟨hraw, ?_⟩
  rw [toInt, shiftRight_frac]
  rw [Fixed15_16.toRaw] at hraw
  rw [hraw]
  simp only [toInt16]
  split_ifs <;> omega

theorem ofInt_toInt_roundtrip_witness :
    IsInt16 (-32768) ∧ (ofInt (-32768)).toRaw = -32768 * 65536 ∧ (ofInt (-32768)).toInt = -32768 :=
  ⟨by decide, ofInt_toInt_roundtrip (-32768) (by decide)⟩


/-- C4: evaluation of `fractional` at the negative input `Fixed15_16(-1.25)`
(raw -81920): `floor` gives `Fixed15_16(-2)` and `fractional` gives the positive
value `Fixed15_16(0.75)` (raw 49152), not `Fixed15_16(-0.25)` (raw -16384). -/
theorem fractional_neg_input :
    ofFloat (-5) 4 = fromRaw (-81920) ∧ ofFloat (-1) 4 = fromRaw (-16384) ∧
    floor (ofFloat (-5) 4) = ofInt (-2) ∧
    fractional (ofFloat (-5) 4) = fromRaw 49152 ∧
    fractional (ofFloat (-5) 4) = ofFloat 3 4 := by
  decide

/-- C5: for every `Fixed15_16` value `x`, `floor x` is the raw value with its
low 16 bits cleared, `fractional x` is those low 16 bits, and
`floor (fractional x)` is `Fixed15_16(0)`. -/
theorem floor_fractional_eq_zero (x : Fixed15_16) (hx : x.Valid) :
    (floor x).toRaw = x.toRaw - x.toRaw % 65536 ∧
    (fractional x).toRaw = x.toRaw % 65536 ∧
    floor (fractional x) = ofInt 0 := by
  have hfr := fractional_raw x hx
  refine ⟨floor_raw x hx, hfr, ?_⟩
  apply floor_of_small <;> omega

theorem floor_fractional_eq_zero_witness :
    (ofFloat (-5) 4).Valid ∧
    (floor (ofFloat (-5) 4)).toRaw = (ofFloat (-5) 4).toRaw - (ofFloat (-5) 4).toRaw % 65536 ∧
    (fractional (ofFloat (-5) 4)).toRaw = (ofFloat (-5) 4).toRaw % 65536 ∧
    floor (fractional (ofFloat (-5) 4)) = ofInt 0 :=
  ⟨by decide, floor_fractional_eq_zero (ofFloat (-5) 4) (by decide)⟩

/-- C6 (counterexample): `Fixed15_16(-1.25)` has raw value -81920, whose quotient
by 65536 rounded toward zero is -1, but `toInt` returns -2. -/
theorem toInt_neg_not_truncated :
    (ofFloat (-5) 4).toRaw = -81920 ∧ Int.tdiv (-81920) 65536 = -1 ∧
    (ofFloat (-5) 4).toInt = -2 ∧
    (ofFloat (-5) 4).toInt ≠ Int.tdiv (ofFloat (-5) 4).toRaw 65536 := by
  decide

/-- C6 (amended): `toInt` rounds toward negative infinity: for every `Fixed15_16`
value `x`, `x.toInt` is the floor of `raw / 65536`; it equals the quotient rounded
toward zero exactly when `raw` is non-negative or a multiple of 65536. So
`Fixed15_16(-1.25).toInt() == -2` and `Fixed15_16(1.75).toInt() == 1`. -/
theorem toInt_eq_floor (x : Fixed15_16) (hx : x.Valid) :
    x.toInt = Int.fdiv x.toRaw 65536 ∧
    (x.toInt = Int.tdiv x.toRaw 65536 ↔ (0 ≤ x.toRaw ∨ x.toRaw % 65536 = 0)) ∧
    (ofFloat (-5) 4).toInt = -2 ∧ (ofFloat 7 4).toInt = 1 := by
  have hv : -2147483648 ≤ x.toRaw ∧ x.toRaw ≤ 2147483647 := hx
  have ht : x.toInt = x.toRaw / 65536 := by
    rw [toInt, shiftRight_frac]
    rw [Fixed15_16.toRaw] at hv ⊢
    generalize x.value_ = v at *
    simp only [toInt16]
    split_ifs <;> omega
  refine ⟨?_, ?_, by decide, by decide⟩
  · rw [ht, Int.fdiv_eq_ediv _ (by decide)]
  · rw [ht]
    by_cases h0 : 0 ≤ x.toRaw
    · rw [Int.tdiv_eq_ediv h0 (by decide)]
      simp [h0]
    · have hneg : Int.tdiv x.toRaw 65536 = -((-x.toRaw) / 65536) := by
        have e : x.toRaw = -(-x.toRaw) := by omega
        rw [e, Int.neg_tdiv, Int.tdiv_eq_ediv (by omega) (by decide), ← e]
      rw [hneg]
      constructor
      · intro h
        right
        omega
      · intro h
        rcases h with h | h
        · omega
        · omega

theorem toInt_eq_floor_witness :
    (ofFloat (-5) 4).Valid ∧ (ofFloat (-5) 4).toInt = Int.fdiv (ofFloat (-5) 4).toRaw 65536 :=
  ⟨by decide, (toInt_eq_floor (ofFloat (-5) 4) (by decide)).1⟩

/-- C7: addition and subtraction act on the raw values and wrap modulo 2^32 into
the `int32_t` range, with no clamping: the result is in range and congruent to the
exact sum (difference), hence equal to it whenever that fits; so
`Fixed15_16(2.5) + Fixed15_16(1.25) == Fixed15_16(3.75)` and
`Fixed15_16(32767) + Fixed15_16(1)` wraps to `Fixed15_16(-32768)`. -/
theorem add_sub_wrap (a b : Fixed15_16) (ha : a.Valid) (hb : b.Valid) :
    (IsInt32 (add a b).toRaw ∧
      ((add a b).toRaw - (a.toRaw + b.toRaw)) % 4294967296 = 0 ∧
      (IsInt32 (a.toRaw + b.toRaw) → (add a b).toRaw = a.toRaw + b.toRaw) ∧
      (2147483647 < a.toRaw + b.toRaw → (add a b).toRaw = a.toRaw + b.toRaw - 4294967296) ∧
      (a.toRaw + b.toRaw < -2147483648 → (add a b).toRaw = a.toRaw + b.toRaw + 4294967296)) ∧
    (IsInt32 (sub a b).toRaw ∧
      ((sub a b).toRaw - (a.toRaw - b.toRaw)) % 4294967296 = 0 ∧
      (IsInt32 (a.toRaw - b.toRaw) → (sub a b).toRaw = a.toRaw - b.toRaw) ∧
      (2147483647 < a.toRaw - b.toRaw → (sub a b).toRaw = a.toRaw - b.toRaw - 4294967296) ∧
      (a.toRaw - b.toRaw < -2147483648 → (sub a b).toRaw = a.toRaw - b.toRaw + 4294967296)) ∧
    add (ofFloat 5 2) (ofFloat 5 4) = ofFloat 15 4 ∧
    add (ofInt 32767) (ofInt 1) = ofInt (-32768) := by
  have ha2 : -2147483648 ≤ a.toRaw ∧ a.toRaw ≤ 2147483647 := ha
  have hb2 : -2147483648 ≤ b.toRaw ∧ b.toRaw ≤ 2147483647 := hb
  rw [add_toRaw, sub_toRaw]
  generalize a.toRaw = x at *
  generalize b.toRaw = y at *
  refine ⟨⟨isInt32_toInt32 _, toInt32_sub_emod _, toInt32_of_isInt32, ?_, ?_⟩,
    ⟨isInt32_toInt32 _, toInt32_sub_emod _, toInt32_of_isInt32, ?_, ?_⟩, by decide, by decide⟩
  all_goals
    intro h
    simp only [toInt32]
    split_ifs <;> omega

theorem add_sub_wrap_witness :
    (ofInt 32767).Valid ∧ (ofInt 1).Valid ∧
    (add (ofInt 32767) (ofInt 1)).toRaw
      = (ofInt 32767).toRaw + (ofInt 1).toRaw - 4294967296 :=
  ⟨by decide, by decide,
    (add_sub_wrap (ofInt 32767) (ofInt 1) (by decide) (by decide)).1.2.2.2.1 (by decide)⟩

/-- C8: for every `a` and every `b` with a non-zero raw value, `a / b` is defined
and its raw value is the quotient `(a.raw * 2^16) / b.raw` rounded toward zero,
reduced to 32 bits; the shifted dividend and the quotient both fit in 64 bits;
the result is the exact quotient whenever that fits in `int32_t`. So
`Fixed15_16(1) / Fixed15_16(4) == Fixed15_16(0.25)` and `x / Fixed15_16(1) == x`. -/
theorem div_exact_quotient (a b : Fixed15_16) (ha : a.Valid) (hb0 : b.toRaw ≠ 0) :
    IsInt64 (a.toRaw * 65536) ∧
    IsInt64 (Int.tdiv (a.toRaw * 65536) b.toRaw) ∧
    (∃ q, div a b = some q ∧ IsInt32 q.toRaw ∧
      (q.toRaw - Int.tdiv (a.toRaw * 65536) b.toRaw) % 4294967296 = 0 ∧
      (IsInt32 (Int.tdiv (a.toRaw * 65536) b.toRaw) →
        q.toRaw = Int.tdiv (a.toRaw * 65536) b.toRaw)) ∧
    div (ofInt 1) (ofInt 4) = some (ofFloat 1 4) ∧
    div a (ofInt 1) = some a := by
  refine ⟨isInt64_shl a ha, isInt64_quot a ha _, ?_, by decide, ?_⟩
  · refine ⟨_, div_eq a b ha hb0, ?_⟩
    rw [toRaw_fromRaw]
    exact ⟨isInt32_toInt32 _, toInt32_sub_emod _, toInt32_of_isInt32⟩
  · have h1 : (ofInt 1).toRaw = 65536 := by decide
    have h1n : (ofInt 1).toRaw ≠ 0 := by rw [h1]; decide
    have hw : toInt32 a.toRaw = a.toRaw := toInt32_of_isInt32 ha
    rw [div_eq a (ofInt 1) ha h1n, h1, Int.mul_tdiv_cancel _ (by decide), hw]
    rfl

theorem div_exact_quotient_witness :
    (ofInt 1).Valid ∧ (ofInt 4).toRaw ≠ 0 ∧
    div (ofInt 1) (ofInt 1) = some (ofInt 1) :=
  ⟨by decide, by decide,
    (div_exact_quotient (ofInt 1) (ofInt 4) (by decide) (by decide)).2.2.2.2⟩

/-- C9: for all `a`, `b` the product of the raw values fits in 64 bits, and the raw
value of `a * b` is the floor of `a.raw * b.raw / 2^16` reduced to 32 bits (exact
whenever that floor fits in `int32_t`); `a * b == b * a` and
`x * Fixed15_16(1) == x`. -/
theorem mul_floor_scaled (a b : Fixed15_16) (ha : a.Valid) (hb : b.Valid) :
    IsInt64 (a.toRaw * b.toRaw) ∧
    IsInt32 (mul a b).toRaw ∧
    ((mul a b).toRaw - Int.fdiv (a.toRaw * b.toRaw) 65536) % 4294967296 = 0 ∧
    (IsInt32 (Int.fdiv (a.toRaw * b.toRaw) 65536) →
      (mul a b).toRaw = Int.fdiv (a.toRaw * b.toRaw) 65536) ∧
    mul a b = mul b a ∧
    mul a (ofInt 1) = a := by
  have hr := mul_raw a b ha hb
  rw [Int.fdiv_eq_ediv _ (by decide), hr]
  refine ⟨isInt64_mul a b ha hb, isInt32_toInt32 _, toInt32_sub_emod _, toInt32_of_isInt32,
    ?_, ?_⟩
  · apply eq_of_toRaw_eq
    rw [hr, mul_raw b a hb ha, Int.mul_comm]
  · apply eq_of_toRaw_eq
    have h1 : (ofInt 1).toRaw = 65536 := by decide
    rw [mul_raw a (ofInt 1) ha (by decide), h1, Int.mul_ediv_cancel _ (by decide)]
    exact toInt32_of_isInt32 ha

theorem mul_floor_scaled_witness :
    (ofFloat (-5) 4).Valid ∧ (ofFloat 5 2).Valid ∧
    mul (ofFloat (-5) 4) (ofFloat 5 2) = mul (ofFloat 5 2) (ofFloat (-5) 4) :=
  ⟨by decide, by decide,
    (mul_floor_scaled (ofFloat (-5) 4) (ofFloat 5 2) (by decide) (by decide)).2.2.2.2.1⟩

/-- C10: for every `a` and every `b` in the `int16_t` range, the mixed products
`a * b` and `b * a` (one 32-bit multiplication of the raw value by `b`) equal the
full products `a * Fixed15_16(b)` and `Fixed15_16(b) * a`. -/
theorem mulInt_eq_mul_ofInt (a : Fixed15_16) (b : Int) (ha : a.Valid) (hb : IsInt16 b) :
    mulInt a b = mul a (ofInt b) ∧ intMul b a = mul (ofInt b) a := by
  have ha2 : -2147483648 ≤ a.toRaw ∧ a.toRaw ≤ 2147483647 := ha
  have hb2 : -32768 ≤ b ∧ b ≤ 32767 := hb
  have hraw := ofInt_raw b hb
  have hpb := @mul_bounds a.toRaw b 2147483648 32768 (by omega) (by omega) (by omega) (by omega)
  have h64 : IsInt64 (a.toRaw * b * 65536) := by
    unfold IsInt64
    constructor <;> omega
  have hfull : (mul a (ofInt b)).toRaw = toInt32 (a.toRaw * b) := by
    rw [mul_toRaw, hraw, ← Int.mul_assoc, toInt64_of_isInt64 h64, shiftRight_frac,
      Int.mul_ediv_cancel _ (by decide)]
  constructor
  · apply eq_of_toRaw_eq
    rw [hfull, mulInt, toRaw_fromRaw]
  · apply eq_of_toRaw_eq
    rw [mul_toRaw, hraw, Int.mul_comm (b * 65536) a.toRaw, ← Int.mul_assoc,
      toInt64_of_isInt64 h64, shiftRight_frac, Int.mul_ediv_cancel _ (by decide),
      intMul, toRaw_fromRaw, Int.mul_comm]

theorem mulInt_eq_mul_ofInt_witness :
    (ofFloat 5 2).Valid ∧ IsInt16 (-3) ∧
    mulInt (ofFloat 5 2) (-3) = mul (ofFloat 5 2) (ofInt (-3)) ∧
    intMul (-3) (ofFloat 5 2) = mul (ofInt (-3)) (ofFloat 5 2) :=
  ⟨by decide, by decide, mulInt_eq_mul_ofInt (ofFloat 5 2) (-3) (by decide) (by decide)⟩

/-! ## DDA theorems -/

/-- C1: in a grid whose outer ring of tiles is entirely non-zero, from every cell
strictly inside the grid (so the grid is at least 3 by 3), for every step direction
in {-1, +1} and all side and delta distances, the DDA loop stops after at most
`width + height` iterations and every cell it passes to `getTileUnchecked` has
`0 <= map_x < width` and `0 <= map_y < height`; the same holds for the loop started
by the setup from any player position whose cell is strictly inside the grid and any
ray direction. -/
theorem dda_terminates_in_bounds (m : MapView) (hwf : m.WellFormed) (hb : m.ClosedBorder) :
    (∀ (s : RayState) (fuel : Nat),
      (1 ≤ s.map_x ∧ s.map_x ≤ (m.width : Int) - 2) →
      (1 ≤ s.map_y ∧ s.map_y ≤ (m.height : Int) - 2) →
      (s.step_x = 1 ∨ s.step_x = -1) → (s.step_y = 1 ∨ s.step_y = -1) →
      m.width + m.height ≤ fuel →
      ∃ r, ddaLoop m fuel s = some r ∧ r.probes.length ≤ m.width + m.height ∧
        ∀ c ∈ r.probes, 0 ≤ c.1 ∧ c.1 < m.width ∧ 0 ≤ c.2 ∧ c.2 < m.height) ∧
    (∀ (p : PlayerData) (ray_dir_x ray_dir_y : Fixed15_16) (fuel : Nat),
      (1 ≤ p.pos_x.toInt ∧ p.pos_x.toInt ≤ (m.width : Int) - 2) →
      (1 ≤ p.pos_y.toInt ∧ p.pos_y.toInt ≤ (m.height : Int) - 2) →
      m.width + m.height ≤ fuel →
      ∃ r, castRay m p ray_dir_x ray_dir_y fuel = some r ∧
        r.probes.length ≤ m.width + m.height ∧
        ∀ c ∈ r.probes, 0 ≤ c.1 ∧ c.1 < m.width ∧ 0 ≤ c.2 ∧ c.2 < m.height) := by
  have hloop : ∀ (s : RayState) (fuel : Nat),
      (1 ≤ s.map_x ∧ s.map_x ≤ (m.width : Int) - 2) →
      (1 ≤ s.map_y ∧ s.map_y ≤ (m.height : Int) - 2) →
      (s.step_x = 1 ∨ s.step_x = -1) → (s.step_y = 1 ∨ s.step_y = -1) →
      m.width + m.height ≤ fuel →
      ∃ r, ddaLoop m fuel s = some r ∧ r.probes.length ≤ m.width + m.height ∧
        ∀ c ∈ r.probes, 0 ≤ c.1 ∧ c.1 < m.width ∧ 0 ≤ c.2 ∧ c.2 < m.height := by
    intro s fuel hx hy hsx hsy hfuel
    have hbx : borderDistX m s ≤ (m.width : Int) - 2 := by
      unfold borderDistX
      split_ifs <;> omega
    have hby : borderDistY m s ≤ (m.height : Int) - 2 := by
      unfold borderDistY
      split_ifs <;> omega
    obtain ⟨r, hr, hlen, hall⟩ := ddaLoop_terminates m hwf hb fuel s (by omega) (by omega)
      hsx hsy (by omega)
    exact ⟨r, hr, by omega, hall⟩
  refine ⟨hloop, ?_⟩
  intro p rx ry fuel hx hy hfuel
  obtain ⟨s, hs, hmx, hmy, hsx, hsy⟩ := ddaSetup_spec p rx ry
  obtain ⟨r, hr, hrest⟩ := hloop s fuel (by rw [hmx]; exact hx) (by rw [hmy]; exact hy)
    hsx hsy hfuel
  refine ⟨r, ?_, hrest⟩
  unfold castRay
  rw [hs]
  exact hr

theorem dda_terminates_in_bounds_witness :
    room3.WellFormed ∧ room3.ClosedBorder ∧
    ∃ r, castRay room3 centrePlayer (ofInt 1) (ofInt 0) 6 = some r ∧
      r.probes.length ≤ room3.width + room3.height ∧
      ∀ c ∈ r.probes, 0 ≤ c.1 ∧ c.1 < room3.width ∧ 0 ≤ c.2 ∧ c.2 < room3.height :=
  ⟨by decide, by decide,
    (dda_terminates_in_bounds room3 (by decide) (by decide)).2 centrePlayer (ofInt 1) (ofInt 0) 6
      (by decide) (by decide) (by decide)⟩

/-- C2 (counterexample): for the player at the centre of the 3x3 room and the
diagonal ray (1, 1) the setup gives `side_dist_x == side_dist_y == 0.5`; the first
iteration then advances the Y axis (`map_y` goes from 1 to 2, `map_x` stays 1) and
the hit is reported with `side = 1`, not as an X-axis hit. -/
theorem dda_tie_not_x_axis :
    ddaSetup centrePlayer (ofInt 1) (ofInt 1) = some tieState ∧
    tieState.side_dist_x = tieState.side_dist_y ∧
    (ddaStep tieState).2 = 1 ∧ (ddaStep tieState).2 ≠ 0 ∧
    (ddaStep tieState).1.map_x = tieState.map_x ∧
    (ddaStep tieState).1.map_y = tieState.map_y + tieState.step_y ∧
    (castRay room3 centrePlayer (ofInt 1) (ofInt 1) 6).map
      (fun r => (r.side, r.state.map_x, r.state.map_y)) = some (1, 1, 2) := by
  decide

/-- C2 (amended): in every loop iteration with `side_dist_x == side_dist_y` the engine
advances the Y axis (`map_y += step_y`, `side_dist_y += delta_dist_y`) and records
`side = 1`, leaving `map_x` and `side_dist_x` unchanged; so a hit found on that step
is reported as a Y-axis hit. -/
theorem dda_tie_advances_y (s : RayState) (htie : s.side_dist_x = s.side_dist_y) :
    (ddaStep s).2 = 1 ∧
    (ddaStep s).1.map_y = toInt16 (s.map_y + s.step_y) ∧
    (ddaStep s).1.side_dist_y = add s.side_dist_y s.delta_dist_y ∧
    (ddaStep s).1.map_x = s.map_x ∧
    (ddaStep s).1.side_dist_x = s.side_dist_x ∧
    (∀ (m : MapView) (fuel tile : Nat),
      m.getTileUnchecked (toUInt8 s.map_x) (toUInt8 (toInt16 (s.map_y + s.step_y)))
          = some tile →
      0 < tile →
      ∃ r, ddaLoop m (fuel + 1) s = some r ∧ r.side = 1 ∧ r.state.map_x = s.map_x ∧
        r.state.map_y = toInt16 (s.map_y + s.step_y) ∧
        r.probes = [(s.map_x, toInt16 (s.map_y + s.step_y))]) := by
  have hlt : Fixed15_16.lt s.side_dist_x s.side_dist_y = false := by
    unfold Fixed15_16.lt
    rw [htie]
    simp
  have hstep : ddaStep s =
      ({ s with side_dist_y := add s.side_dist_y s.delta_dist_y,
                map_y := toInt16 (s.map_y + s.step_y) }, 1) := by
    unfold ddaStep
    rw [hlt]
    rfl
  refine ⟨by rw [hstep], by rw [hstep], by rw [hstep], by rw [hstep], by rw [hstep], ?_⟩
  intro m fuel tile hread htile
  rw [ddaLoop, hstep]
  simp only [hread, htile, if_true]
  exact ⟨_, rfl, rfl, rfl, rfl, rfl⟩

theorem dda_tie_advances_y_witness :
    tieState.side_dist_x = tieState.side_dist_y ∧ (ddaStep tieState).2 = 1 :=
  ⟨by decide, (dda_tie_advances_y tieState (by decide)).1⟩

/-! ## Sine lookup theorems -/

/-- C11: for every integer angle `a` in [0, 360), `sinfp(a)` and `sinfp(a + 180)` are
both in-bounds lookups and `sinfp(a) == -sinfp(a + 180)` with equal raw values, for
every 91-entry table of `int32_t` values whose entry 0 is zero, and so for
`FP_SIN_TABLE`. -/
theorem sinfp_half_turn (a : Int) (h0 : 0 ≤ a) (h1 : a < 360) :
    (∀ table : List Fixed15_16, table.length = SIN_LUT_SIZE →
      table[0]? = some (Fixed15_16.fromRaw 0) →
      (∀ t ∈ table, t.Valid) →
      ∃ v w, sinfp table a = some v ∧ sinfp table (toInt16 (a + 180)) = some w ∧
        v = Fixed15_16.neg w ∧ v.toRaw = (Fixed15_16.neg w).toRaw) ∧
    (∃ v w, sinfp FP_SIN_TABLE a = some v ∧ sinfp FP_SIN_TABLE (toInt16 (a + 180)) = some w ∧
        v = Fixed15_16.neg w ∧ v.toRaw = (Fixed15_16.neg w).toRaw) := by
  have hgen : ∀ table : List Fixed15_16, table.length = SIN_LUT_SIZE →
      table[0]? = some (Fixed15_16.fromRaw 0) →
      (∀ t ∈ table, t.Valid) →
      ∃ v w, sinfp table a = some v ∧ sinfp table (toInt16 (a + 180)) = some w ∧
        v = Fixed15_16.neg w ∧ v.toRaw = (Fixed15_16.neg w).toRaw := by
    intro table hlen hz hval
    have hlen91 : table.length = 91 := hlen
    have hb : toInt16 (a + 180) = a + 180 := by
      simp only [toInt16]
      split_ifs <;> omega
    rw [hb]
    have hm : a % 360 = a := by omega
    have hget : ∀ i : Nat, i ≤ 90 → ∃ t, table[i]? = some t ∧ t ∈ table := by
      intro i hi
      have hlt : i < table.length := by omega
      exact ⟨table[i], List.getElem?_eq_getElem hlt, List.getElem_mem hlt⟩
    have hnn : ∀ t ∈ table, Fixed15_16.neg (Fixed15_16.neg t) = t := fun t ht =>
      neg_neg_of_valid t (hval t ht)
    have hzero : Fixed15_16.fromRaw 0 = Fixed15_16.neg (Fixed15_16.fromRaw 0) := by decide
    have key : ∃ v w, sinfp table a = some v ∧ sinfp table (a + 180) = some w ∧
        v = Fixed15_16.neg w := by
      by_cases c0 : a = 0
      · have i1 : sinfpIndex a = (0, false) := by
          rw [sinfpIndex_spec, hm, c0]; rfl
        have i2 : sinfpIndex (a + 180) = (0, false) := by
          rw [sinfpIndex_spec, c0]; rfl
        rw [sinfp_eq table a _ _ i1, sinfp_eq table (a + 180) _ _ i2, hz]
        exact ⟨_, _, rfl, rfl, hzero⟩
      by_cases c1 : a ≤ 90
      · have hm2 : (a + 180) % 360 = a + 180 := by omega
        have i1 : sinfpIndex a = (a.toNat, false) := by
          rw [sinfpIndex_spec, hm, if_pos c1]
        have i2 : sinfpIndex (a + 180) = (a.toNat, true) := by
          rw [sinfpIndex_spec, hm2, if_neg (by omega), if_neg (by omega), if_pos (by omega)]
          congr 2
          omega
        obtain ⟨t, ht, hmem⟩ := hget a.toNat (by omega)
        rw [sinfp_eq table a _ _ i1, sinfp_eq table (a + 180) _ _ i2, ht]
        exact ⟨_, _, rfl, rfl, (hnn t hmem).symm⟩
      by_cases c2 : a < 180
      · have hm2 : (a + 180) % 360 = a + 180 := by omega
        have i1 : sinfpIndex a = ((180 - a).toNat, false) := by
          rw [sinfpIndex_spec, hm, if_neg c1, if_pos (by omega)]
        have i2 : sinfpIndex (a + 180) = ((180 - a).toNat, true) := by
          rw [sinfpIndex_spec, hm2, if_neg (by omega), if_neg (by omega), if_neg (by omega)]
          congr 2
          omega
        obtain ⟨t, ht, hmem⟩ := hget (180 - a).toNat (by omega)
        rw [sinfp_eq table a _ _ i1, sinfp_eq table (a + 180) _ _ i2, ht]
        exact ⟨_, _, rfl, rfl, (hnn t hmem).symm⟩
      by_cases c3 : a = 180
      · have i1 : sinfpIndex a = (0, false) := by
          rw [sinfpIndex_spec, hm, c3]; rfl
        have i2 : sinfpIndex (a + 180) = (0, false) := by
          rw [sinfpIndex_spec, c3]; rfl
        rw [sinfp_eq table a _ _ i1, sinfp_eq table (a + 180) _ _ i2, hz]
        exact ⟨_, _, rfl, rfl, hzero⟩
      have hm2 : (a + 180) % 360 = a - 180 := by omega
      by_cases c4 : a ≤ 270
      · have i1 : sinfpIndex a = ((a - 180).toNat, true) := by
          rw [sinfpIndex_spec, hm, if_neg c1, if_neg (by omega), if_pos c4]
        have i2 : sinfpIndex (a + 180) = ((a - 180).toNat, false) := by
          rw [sinfpIndex_spec, hm2, if_pos (by omega)]
        obtain ⟨t, ht, hmem⟩ := hget (a - 180).toNat (by omega)
        rw [sinfp_eq table a _ _ i1, sinfp_eq table (a + 180) _ _ i2, ht]
        exact ⟨_, _, rfl, rfl, rfl⟩
      · have i1 : sinfpIndex a = ((360 - a).toNat, true) := by
          rw [sinfpIndex_spec, hm, if_neg c1, if_neg (by omega), if_neg c4]
        have i2 : sinfpIndex (a + 180) = ((360 - a).toNat, false) := by
          rw [sinfpIndex_spec, hm2, if_neg (by omega), if_pos (by omega)]
          congr 2
          omega
        obtain ⟨t, ht, hmem⟩ := hget (360 - a).toNat (by omega)
        rw [sinfp_eq table a _ _ i1, sinfp_eq table (a + 180) _ _ i2, ht]
        exact ⟨_, _, rfl, rfl, rfl⟩
    obtain ⟨v, w, hv, hw, hvw⟩ := key
    exact ⟨v, w, hv, hw, hvw, by rw [hvw]⟩
  exact ⟨hgen, hgen FP_SIN_TABLE (by decide) (by decide) (by decide)⟩

theorem sinfp_half_turn_witness :
    ∃ v w, sinfp FP_SIN_TABLE 270 = some v ∧ sinfp FP_SIN_TABLE (toInt16 (270 + 180)) = some w ∧
      v = Fixed15_16.neg w ∧ v.toRaw = (Fixed15_16.neg w).toRaw :=
  (sinfp_half_turn 270 (by decide) (by decide)).2

/-- C12: for every angle `a` (every `int16_t` value, negative ones included), with `n` the representative of `a` modulo 360
in [0, 360), the index `sinfp` uses is at most 90 and, for a 91-entry table `T`,
`sinfp(a)` is `T[n]` if `n <= 90`, `T[180 - n]` if `90 < n <= 180`, `-T[n - 180]` if
`180 < n <= 270` and `-T[360 - n]` if `270 < n < 360`; the lookup is in bounds. -/
theorem sinfp_quadrants (table : List Fixed15_16) (a : Int)
    (hlen : table.length = SIN_LUT_SIZE) :
    0 ≤ a % 360 ∧ a % 360 < 360 ∧
    (sinfpIndex a).1 ≤ 90 ∧ (sinfpIndex a).1 < table.length ∧
    (∃ v, sinfp table a = some v) ∧
    (a % 360 ≤ 90 → sinfp table a = table[(a % 360).toNat]?) ∧
    (90 < a % 360 ∧ a % 360 ≤ 180 → sinfp table a = table[(180 - a % 360).toNat]?) ∧
    (180 < a % 360 ∧ a % 360 ≤ 270 →
      sinfp table a = table[(a % 360 - 180).toNat]?.map Fixed15_16.neg) ∧
    (270 < a % 360 → sinfp table a = table[(360 - a % 360).toNat]?.map Fixed15_16.neg) := by
  have hlen91 : table.length = 91 := hlen
  have hle := sinfpIndex_le a
  have hspec := sinfpIndex_spec a
  have hid : ∀ o : Option Fixed15_16,
      o.map (fun result => if false = true then Fixed15_16.neg result else result) = o := by
    intro o
    cases o <;> rfl
  have hng : ∀ o : Option Fixed15_16,
      o.map (fun result => if true = true then Fixed15_16.neg result else result)
        = o.map Fixed15_16.neg := by
    intro o
    cases o <;> rfl
  refine ⟨by omega, by omega, hle, by omega, ?_, ?_, ?_, ?_, ?_⟩
  · have hlt : (sinfpIndex a).1 < table.length := by omega
    rw [sinfp_eq table a (sinfpIndex a).1 (sinfpIndex a).2 rfl,
      List.getElem?_eq_getElem hlt]
    exact ⟨_, rfl⟩
  · intro c
    rw [if_pos c] at hspec
    rw [sinfp_eq table a _ _ hspec, hid]
  · intro c
    rw [if_neg (by omega), if_pos c.2] at hspec
    rw [sinfp_eq table a _ _ hspec, hid]
  · intro c
    rw [if_neg (by omega), if_neg (by omega), if_pos c.2] at hspec
    rw [sinfp_eq table a _ _ hspec, hng]
  · intro c
    rw [if_neg (by omega), if_neg (by omega), if_neg (by omega)] at hspec
    rw [sinfp_eq table a _ _ hspec, hng]

theorem sinfp_quadrants_witness :
    FP_SIN_TABLE.length = SIN_LUT_SIZE ∧ IsInt16 (-100) ∧
    sinfp FP_SIN_TABLE (-100) = FP_SIN_TABLE[((-100 : Int) % 360 - 180).toNat]?.map Fixed15_16.neg :=
  ⟨by decide, by decide,
    (sinfp_quadrants FP_SIN_TABLE (-100) (by decide)).2.2.2.2.2.2.2.1 (by decide)⟩

/-! ## Accessor theorems -/

/-- C13: for every well-formed `MapView` and all `x`, `y`, `getTile(x, y)` is 0 when
`x >= width` or `y >= height`; otherwise the index `y + height * x` is inside the tile
bytes and `getTile(x, y)` is `tile_data[y + height * x]`, the value of
`getTileUnchecked(x, y)`. -/
theorem getTile_checked (m : MapView) (x y : Nat) (hwf : m.WellFormed) :
    ((x ≥ m.width ∨ y ≥ m.height) → m.getTile x y = some 0) ∧
    ((x < m.width ∧ y < m.height) →
      y + m.height * x < m.tile_data.length ∧
      m.getTile x y = m.tile_data[y + m.height * x]? ∧
      m.getTile x y = m.getTileUnchecked x y ∧
      ∃ t, m.getTile x y = some t) := by
  constructor
  · intro h
    unfold MapView.getTile
    rw [if_pos h]
  · intro h
    have hn : ¬ (x ≥ m.width ∨ y ≥ m.height) := by omega
    have hi : y + m.height * x < m.tile_data.length := by
      rw [hwf.2.2]
      exact index_lt _ _ _ _ h.1 h.2
    have hg : m.getTile x y = m.getTileUnchecked x y := by
      unfold MapView.getTile
      rw [if_neg hn]
    refine ⟨hi, ?_, hg, ?_⟩
    · rw [hg]
      rfl
    · rw [hg]
      exact getTileUnchecked_isSome m hwf x y h.1 h.2

theorem getTile_checked_witness :
    room3.WellFormed ∧ room3.getTile 7 1 = some 0 ∧ room3.getTile 1 1 = room3.getTileUnchecked 1 1 :=
  ⟨by decide, (getTile_checked room3 7 1 (by decide)).1 (by decide),
    ((getTile_checked room3 1 1 (by decide)).2 (by decide)).2.2.1⟩

/-- C14: for every blob whose offset table has `tex_count` entries and every
`texIndex`, `getTextureData(texIndex)` returns a pointer, which is null if and only if
`texIndex >= header.tex_count`, and otherwise is the blob address advanced by entry
`texIndex` of the offset table. -/
theorem getTextureData_checked (blob : TextureBlob) (texIndex : Nat) (hwf : blob.WellFormed) :
    ∃ p, TextureManager.getTextureData blob texIndex = some p ∧
      (p = TexturePtr.null ↔ texIndex ≥ blob.header.tex_count) ∧
      (texIndex < blob.header.tex_count →
        ∃ offset, blob.offset_array[texIndex]? = some offset ∧
          p = TexturePtr.blobPlus offset) := by
  unfold TextureManager.getTextureData
  by_cases h : texIndex ≥ blob.header.tex_count
  · rw [if_pos h]
    refine ⟨_, rfl, ?_, ?_⟩
    · exact ⟨fun _ => h, fun _ => rfl⟩
    · intro hlt
      omega
  · rw [if_neg h]
    have hlt : texIndex < blob.offset_array.length := by
      rw [hwf]
      omega
    rw [List.getElem?_eq_getElem hlt]
    refine ⟨_, rfl, ?_, ?_⟩
    · constructor
      · intro hp
        cases hp
      · intro hge
        exact absurd hge h
    · intro _
      exact ⟨_, rfl, rfl⟩

theorem getTextureData_checked_witness :
    blob3.WellFormed ∧
    ∃ p, TextureManager.getTextureData blob3 1 = some p ∧
      (p = TexturePtr.null ↔ 1 ≥ blob3.header.tex_count) ∧
      (1 < blob3.header.tex_count →
        ∃ offset, blob3.offset_array[1]? = some offset ∧ p = TexturePtr.blobPlus offset) :=
  ⟨by decide, getTextureData_checked blob3 1 (by decide)⟩

/-! ## Column theorems -/

/-- C16 (counterexample): the cast straight ahead for the player at the centre of the
3x3 room facing +Y hits with `side = 1` and `ray_dir_y > 0`; the wall position 1.5 has
`rawCoord = 32`, and `tex_x_coord` is 32, not `TEX_SIZE - 1 - 32 = 31`. -/
theorem texXCoord_side1_positive_not_mirrored :
    (castColumn room3 (initialState (centreFacing 0 1)) 80 6).map
      (fun c => (c.dda.side, c.ray_dir_x, c.ray_dir_y, c.wall_dist))
      = some (1, Fixed15_16.ofInt 0, Fixed15_16.ofInt 1, Fixed15_16.ofFloat 1 2) ∧
    wallX (centreFacing 0 1) 1 (Fixed15_16.ofFloat 1 2) (Fixed15_16.ofInt 0) (Fixed15_16.ofInt 1)
      = Fixed15_16.ofFloat 3 2 ∧
    (Fixed15_16.ofInt 1).gtInt 0 = true ∧
    rawTexCoord (Fixed15_16.ofFloat 3 2) = 32 ∧
    texXCoord 1 (Fixed15_16.ofInt 0) (Fixed15_16.ofInt 1) (Fixed15_16.ofFloat 3 2) = 32 ∧
    (TEX_SIZE : Int) - 1 - rawTexCoord (Fixed15_16.ofFloat 3 2) = 31 := by
  decide

/-- C16 (amended): with `rawCoord = (fractional(wall_x) << TEX_LOG2_SIZE).toInt()`, if
`side == 0` with `ray_dir_x > 0`, or `side == 1` with `ray_dir_y < 0`, then
`tex_x_coord == TEX_SIZE - 1 - rawCoord`; if `side == 0` with `ray_dir_x < 0`, or
`side == 1` with `ray_dir_y > 0`, then `tex_x_coord == rawCoord`. -/
theorem texXCoord_mirror (side : Nat) (ray_dir_x ray_dir_y wall_x : Fixed15_16)
    (hx : wall_x.Valid) :
    (((side = 0 ∧ 0 < ray_dir_x.toRaw) ∨ (side = 1 ∧ ray_dir_y.toRaw < 0)) →
      texXCoord side ray_dir_x ray_dir_y wall_x = (TEX_SIZE : Int) - 1 - rawTexCoord wall_x) ∧
    (((side = 0 ∧ ray_dir_x.toRaw < 0) ∨ (side = 1 ∧ 0 < ray_dir_y.toRaw)) →
      texXCoord side ray_dir_x ray_dir_y wall_x = rawTexCoord wall_x) := by
  have hr := rawTexCoord_range wall_x hx
  have hts : (TEX_SIZE : Int) = 64 := by decide
  constructor
  · intro h
    have hc : (side = 0 ∧ ray_dir_x.gtInt 0 = true) ∨ (side = 1 ∧ ray_dir_y.ltInt 0 = true) := by
      rcases h with ⟨h1, h2⟩ | ⟨h1, h2⟩
      · exact Or.inl ⟨h1, (gtInt_zero _).mpr h2⟩
      · exact Or.inr ⟨h1, (ltInt_zero _).mpr h2⟩
    unfold texXCoord
    simp only [if_pos hc]
    rw [hts]
    generalize rawTexCoord wall_x = r at *
    simp only [toInt16]
    split_ifs <;> omega
  · intro h
    have hc : ¬ ((side = 0 ∧ ray_dir_x.gtInt 0 = true) ∨
        (side = 1 ∧ ray_dir_y.ltInt 0 = true)) := by
      rw [gtInt_zero, ltInt_zero]
      omega
    unfold texXCoord
    simp only [if_neg hc]

theorem texXCoord_mirror_witness :
    (Fixed15_16.ofFloat 3 2).Valid ∧
    texXCoord 1 (Fixed15_16.ofInt 0) (Fixed15_16.ofInt (-1)) (Fixed15_16.ofFloat 3 2)
      = (TEX_SIZE : Int) - 1 - rawTexCoord (Fixed15_16.ofFloat 3 2) :=
  ⟨by decide,
    (texXCoord_mirror 1 (Fixed15_16.ofInt 0) (Fixed15_16.ofInt (-1)) (Fixed15_16.ofFloat 3 2)
      (by decide)).1 (by decide)⟩

/-- C20 (counterexample): `wall_dist = Fixed15_16(200)` is at least 1/128, yet
`line_height = (SCREEN_HEIGHT / wall_dist).toInt()` is 0 and the division
`TEX_SIZE_FP / Fixed15_16(line_height)` has a zero divisor. -/
theorem lineHeight_zero_far_wall :
    (Fixed15_16.ofFloat 1 128).toRaw = 512 ∧ 512 ≤ (Fixed15_16.ofInt 200).toRaw ∧
    lineHeight (Fixed15_16.ofInt 200) = some 0 ∧
    (Fixed15_16.ofInt 0).toRaw = 0 ∧ texStep 0 = none := by
  decide

/-- C20 (amended): for every `wall_dist` with `1/128 <= wall_dist <= 128` (raw value
from 512 to 8388608), `line_height = (SCREEN_HEIGHT / wall_dist).toInt()` is non-zero
(between 1 and 16384), so `step = TEX_SIZE_FP / Fixed15_16(line_height)` has a
non-zero divisor; for every `wall_dist` above 128 `line_height` is 0. -/
theorem lineHeight_nonzero (wall_dist : Fixed15_16) (hlo : 512 ≤ wall_dist.toRaw)
    (hhi : wall_dist.toRaw ≤ 8388608) :
    (∃ line_height, lineHeight wall_dist = some line_height ∧
      1 ≤ line_height ∧ line_height ≤ 16384 ∧
      (Fixed15_16.ofInt line_height).toRaw ≠ 0 ∧
      ∃ step, texStep line_height = some step) ∧
    (∀ far : Fixed15_16, far.Valid → 8388608 < far.toRaw → lineHeight far = some 0) := by
  constructor
  · rw [lineHeight_eq wall_dist (by omega)]
    have hq1 : 65536 ≤ 549755813888 / wall_dist.toRaw := by
      rw [Int.le_ediv_iff_mul_le (by omega)]
      omega
    have hq2 : 549755813888 / wall_dist.toRaw < 1073741825 := by
      rw [Int.ediv_lt_iff_lt_mul (by omega)]
      omega
    generalize 549755813888 / wall_dist.toRaw = q at *
    have hlh : 1 ≤ toInt16 (toInt32 q / 65536) ∧ toInt16 (toInt32 q / 65536) ≤ 16384 := by
      simp only [toInt32, toInt16]
      split_ifs <;> omega
    generalize toInt16 (toInt32 q / 65536) = lh at *
    have hraw := ofInt_raw lh (by unfold IsInt16; omega)
    have hne : (Fixed15_16.ofInt lh).toRaw ≠ 0 := by omega
    refine ⟨lh, rfl, hlh.1, hlh.2, hne, ?_⟩
    unfold texStep
    rw [div_eq _ _ (by decide) hne]
    exact ⟨_, rfl⟩
  · intro far hv hfar
    have hv2 : -2147483648 ≤ far.toRaw ∧ far.toRaw ≤ 2147483647 := hv
    rw [lineHeight_eq far (by omega)]
    have hq1 : 0 ≤ 549755813888 / far.toRaw :=
      Int.ediv_nonneg (by decide) (by omega)
    have hq2 : 549755813888 / far.toRaw < 65536 := by
      rw [Int.ediv_lt_iff_lt_mul (by omega)]
      omega
    generalize 549755813888 / far.toRaw = q at *
    congr 1
    simp only [toInt32, toInt16]
    split_ifs <;> omega

theorem lineHeight_nonzero_witness :
    512 ≤ (Fixed15_16.ofFloat 1 2).toRaw ∧ (Fixed15_16.ofFloat 1 2).toRaw ≤ 8388608 ∧
    ∃ line_height, lineHeight (Fixed15_16.ofFloat 1 2) = some line_height ∧
      1 ≤ line_height ∧ line_height ≤ 16384 ∧
      (Fixed15_16.ofInt line_height).toRaw ≠ 0 ∧
      ∃ step, texStep line_height = some step :=
  ⟨by decide, by decide,
    (lineHeight_nonzero (Fixed15_16.ofFloat 1 2) (by decide) (by decide)).1⟩

/-! ## End-to-end cast theorems -/

/-- C15 (counterexample): in the 3x3 room, for the player at (1.5, 1.5) facing +X and
the screen column 80, the cast reports side 0 and `wall_dist` with raw value 32768,
which is `Fixed15_16(0.5)` and not `Fixed15_16(1)` (raw 65536). -/
theorem cast_room_wall_dist_not_one :
    (castColumn room3 (initialState (centreFacing 1 0)) 80 6).map
      (fun c => (c.dda.side, c.wall_dist)) = some (0, fromRaw 32768) ∧
    ofFloat 1 2 = fromRaw 32768 ∧ ofInt 1 = fromRaw 65536 ∧
    fromRaw 32768 ≠ ofInt 1 := by
  decide

/-- C15 (amended): for every 3x3 grid whose border tiles are non-zero, with the player
at the centre (1.5, 1.5) of the middle cell, `dir` one of (1,0), (-1,0), (0,1), (0,-1),
`plane = (-dir_y, dir_x) * FOV_SCALE` and the screen column 80 (where `camera_x` is 0
and the ray is `dir`), the DDA reports hit side 0 for the two X-facing directions and
hit side 1 for the two Y-facing directions, and the wall distance is exactly half a
cell (`wall_dist == Fixed15_16(0.5)`). -/
theorem cast_3x3_room (m : MapView) (fuel : Nat) (hwf : m.WellFormed) (hw : m.width = 3)
    (hh : m.height = 3) (hb : m.ClosedBorder) (hfuel : 1 ≤ fuel) :
    cameraX 80 = some (ofInt 0) ∧
    (∃ c, castColumn m (initialState (centreFacing 1 0)) 80 fuel = some c ∧
      c.ray_dir_x = ofInt 1 ∧ c.ray_dir_y = ofInt 0 ∧
      c.dda.side = 0 ∧ c.wall_dist = ofFloat 1 2) ∧
    (∃ c, castColumn m (initialState (centreFacing (-1) 0)) 80 fuel = some c ∧
      c.ray_dir_x = ofInt (-1) ∧ c.ray_dir_y = ofInt 0 ∧
      c.dda.side = 0 ∧ c.wall_dist = ofFloat 1 2) ∧
    (∃ c, castColumn m (initialState (centreFacing 0 1)) 80 fuel = some c ∧
      c.ray_dir_x = ofInt 0 ∧ c.ray_dir_y = ofInt 1 ∧
      c.dda.side = 1 ∧ c.wall_dist = ofFloat 1 2) ∧
    (∃ c, castColumn m (initialState (centreFacing 0 (-1))) 80 fuel = some c ∧
      c.ray_dir_x = ofInt 0 ∧ c.ray_dir_y = ofInt (-1) ∧
      c.dda.side = 1 ∧ c.wall_dist = ofFloat 1 2) := by
  obtain ⟨k, rfl⟩ : ∃ k, fuel = k + 1 := ⟨fuel - 1, by omega⟩
  have hcam : cameraX 80 = some (fromRaw 0) := by decide
  obtain ⟨t21, h21, p21⟩ := border_tile_pos m hwf hb 2 1 (by omega) (by omega) (by omega)
  obtain ⟨t01, h01, p01⟩ := border_tile_pos m hwf hb 0 1 (by omega) (by omega) (by omega)
  obtain ⟨t12, h12, p12⟩ := border_tile_pos m hwf hb 1 2 (by omega) (by omega) (by omega)
  obtain ⟨t10, h10, p10⟩ := border_tile_pos m hwf hb 1 0 (by omega) (by omega) (by omega)
  refine ⟨by decide, ?_, ?_, ?_, ?_⟩
  · refine ⟨_, castColumn_first_hit m (initialState (centreFacing 1 0)) 80 k (fromRaw 0)
      { map_x := 1, map_y := 1, side_dist_x := fromRaw 32768,
        side_dist_y := fromRaw 1073741823, delta_dist_x := fromRaw 65536,
        delta_dist_y := fromRaw 2147483647, step_x := 1, step_y := 1 }
      t21 hcam (by decide) h21 p21, by decide, by decide, by decide, by decide⟩
  · refine ⟨_, castColumn_first_hit m (initialState (centreFacing (-1) 0)) 80 k (fromRaw 0)
      { map_x := 1, map_y := 1, side_dist_x := fromRaw 32768,
        side_dist_y := fromRaw 1073741823, delta_dist_x := fromRaw 65536,
        delta_dist_y := fromRaw 2147483647, step_x := -1, step_y := 1 }
      t01 hcam (by decide) h01 p01, by decide, by decide, by decide, by decide⟩
  · refine ⟨_, castColumn_first_hit m (initialState (centreFacing 0 1)) 80 k (fromRaw 0)
      { map_x := 1, map_y := 1, side_dist_x := fromRaw 1073741823,
        side_dist_y := fromRaw 32768, delta_dist_x := fromRaw 2147483647,
        delta_dist_y := fromRaw 65536, step_x := 1, step_y := 1 }
      t12 hcam (by decide) h12 p12, by decide, by decide, by decide, by decide⟩
  · refine ⟨_, castColumn_first_hit m (initialState (centreFacing 0 (-1))) 80 k (fromRaw 0)
      { map_x := 1, map_y := 1, side_dist_x := fromRaw 1073741823,
        side_dist_y := fromRaw 32768, delta_dist_x := fromRaw 2147483647,
        delta_dist_y := fromRaw 65536, step_x := 1, step_y := -1 }
      t10 hcam (by decide) h10 p10, by decide, by decide, by decide, by decide⟩

theorem cast_3x3_room_witness :
    room3.WellFormed ∧ room3.ClosedBorder ∧
    ∃ c, castColumn room3 (initialState (centreFacing 0 (-1))) 80 6 = some c ∧
      c.ray_dir_x = ofInt 0 ∧ c.ray_dir_y = ofInt (-1) ∧
      c.dda.side = 1 ∧ c.wall_dist = ofFloat 1 2 :=
  ⟨by decide, by decide,
    (cast_3x3_room room3 6 (by decide) (by decide) (by decide) (by decide)
      (by decide)).2.2.2.2⟩

/-- C19: evaluation of a ray whose Y component is exactly zero. `delta_dist_y` is the
sentinel `fromRaw(INT32_MAX)` for every zero component, but `side_dist_y` is the
player's distance to the next grid line times the sentinel. In the 3x3 room, for a
player in the open cell at x = 1.0 and one raw unit below the grid line y = 2, and the
ray (1, 0), `side_dist_y` (raw 32767) is below `side_dist_x` (raw 65536): the first
iteration advances Y, `map_y` goes from 1 to 2 and the hit is reported with `side = 1`.
In the 4x6 grid `hall` the same player and ray advance Y four times, `side_dist_y`
wrapping on each addition of the sentinel, and hit the border cell (1, 5) with
`side = 1` without ever advancing X; from the cell centre the same ray advances X only
and hits (3, 1) with `side = 0`. -/
theorem zero_component_advances_y :
    (∀ ray_dir : Fixed15_16, ray_dir.toRaw = 0 →
      deltaDist ray_dir = some (fromRaw INT32_MAX)) ∧
    room3.WellFormed ∧ room3.ClosedBorder ∧
    edgePlayer.pos_x.toInt = 1 ∧ edgePlayer.pos_y.toInt = 1 ∧
    (ofInt 0).toRaw = 0 ∧ (ofInt 1).toRaw ≠ 0 ∧
    (ddaSetup edgePlayer (ofInt 1) (ofInt 0)).map
      (fun s => (s.delta_dist_y, s.side_dist_x, s.side_dist_y, s.map_y))
      = some (fromRaw INT32_MAX, fromRaw 65536, fromRaw 32767, 1) ∧
    (castRay room3 edgePlayer (ofInt 1) (ofInt 0) 6).map
      (fun r => (r.side, r.state.map_y)) = some (1, 2) ∧
    hall.WellFormed ∧ hall.ClosedBorder ∧
    (castRay hall edgePlayer (ofInt 1) (ofInt 0) 10).map
      (fun r => (r.side, r.state.map_x, r.state.map_y, r.probes))
      = some (1, 1, 5, [(1, 2), (1, 3), (1, 4), (1, 5)]) ∧
    (castRay hall centrePlayer (ofInt 1) (ofInt 0) 10).map
      (fun r => (r.side, r.state.map_x, r.state.map_y, r.probes))
      = some (0, 3, 1, [(2, 1), (3, 1)]) := by
  refine ⟨fun ray_dir h => deltaDist_zero ray_dir h, by decide, by decide, by decide,
    by decide, by decide, by decide, by decide, by decide, by decide, by decide,
    by decide, by decide⟩

/-! ## Movement theorems -/

/-- C17: on a move-forward update without a turn, if the X probe tile
(`toInt(pos_x + dir_x * 10 * MOVE_STEP)`, `toInt(pos_y)`) is 0 and the Y probe tile
(`toInt` of the new `pos_x`, `toInt(pos_y + dir_y * 10 * MOVE_STEP)`) is non-zero, then
`pos_x` becomes `pos_x + dir_x * MOVE_STEP` and `pos_y`, `dir` and the plane are
unchanged; if the X probe is blocked and the Y probe open, only `pos_y` changes; and
the same for move-backward with the offsets subtracted. -/
theorem move_axis_separation (m : MapView) (g : GameState) (vrx_reading vry_reading : Nat)
    (hvrx : 1000 ≤ vrx_reading ∧ vrx_reading ≤ 3000) :
    (vry_reading < 1000 →
      (∀ ty : Nat,
        m.getTileUnchecked
          (toUInt8 (add g.player_data.pos_x
            (mul (mulInt g.player_data.dir_x 10) MOVE_STEP)).toInt)
          (toUInt8 g.player_data.pos_y.toInt) = some 0 →
        m.getTileUnchecked
          (toUInt8 (add g.player_data.pos_x (mul g.player_data.dir_x MOVE_STEP)).toInt)
          (toUInt8 (add g.player_data.pos_y
            (mul (mulInt g.player_data.dir_y 10) MOVE_STEP)).toInt) = some ty →
        ty ≠ 0 →
        applyInput m vrx_reading vry_reading g = some
          { g with player_data := { g.player_data with
              pos_x := add g.player_data.pos_x (mul g.player_data.dir_x MOVE_STEP) } }) ∧
      (∀ tx : Nat,
        m.getTileUnchecked
          (toUInt8 (add g.player_data.pos_x
            (mul (mulInt g.player_data.dir_x 10) MOVE_STEP)).toInt)
          (toUInt8 g.player_data.pos_y.toInt) = some tx →
        tx ≠ 0 →
        m.getTileUnchecked
          (toUInt8 g.player_data.pos_x.toInt)
          (toUInt8 (add g.player_data.pos_y
            (mul (mulInt g.player_data.dir_y 10) MOVE_STEP)).toInt) = some 0 →
        applyInput m vrx_reading vry_reading g = some
          { g with player_data := { g.player_data with
              pos_y := add g.player_data.pos_y (mul g.player_data.dir_y MOVE_STEP) } })) ∧
    (vry_reading > 3000 →
      (∀ ty : Nat,
        m.getTileUnchecked
          (toUInt8 (sub g.player_data.pos_x
            (mul (mulInt g.player_data.dir_x 10) MOVE_STEP)).toInt)
          (toUInt8 g.player_data.pos_y.toInt) = some 0 →
        m.getTileUnchecked
          (toUInt8 (sub g.player_data.pos_x (mul g.player_data.dir_x MOVE_STEP)).toInt)
          (toUInt8 (sub g.player_data.pos_y
            (mul (mulInt g.player_data.dir_y 10) MOVE_STEP)).toInt) = some ty →
        ty ≠ 0 →
        applyInput m vrx_reading vry_reading g = some
          { g with player_data := { g.player_data with
              pos_x := sub g.player_data.pos_x (mul g.player_data.dir_x MOVE_STEP) } }) ∧
      (∀ tx : Nat,
        m.getTileUnchecked
          (toUInt8 (sub g.player_data.pos_x
            (mul (mulInt g.player_data.dir_x 10) MOVE_STEP)).toInt)
          (toUInt8 g.player_data.pos_y.toInt) = some tx →
        tx ≠ 0 →
        m.getTileUnchecked
          (toUInt8 g.player_data.pos_x.toInt)
          (toUInt8 (sub g.player_data.pos_y
            (mul (mulInt g.player_data.dir_y 10) MOVE_STEP)).toInt) = some 0 →
        applyInput m vrx_reading vry_reading g = some
          { g with player_data := { g.player_data with
              pos_y := sub g.player_data.pos_y (mul g.player_data.dir_y MOVE_STEP) } })) := by
  have hn1 : ¬ vrx_reading > 3000 := by omega
  have hn2 : ¬ vrx_reading < 1000 := by omega
  constructor
  · intro hf
    constructor
    · intro ty hx hy hty
      unfold applyInput applyMove applyTurn moveForward
      simp only [if_pos hf, hx, hy, hty, hn1, hn2, Option.bind_eq_bind, Option.some_bind, pure,
        if_true, if_false, Option.map_some']
    · intro tx hx htx hy
      unfold applyInput applyMove applyTurn moveForward
      simp only [if_pos hf, hx, hy, htx, hn1, hn2, Option.bind_eq_bind, Option.some_bind, pure,
        if_true, if_false, Option.map_some']
  · intro hb
    have hnf : ¬ vry_reading < 1000 := by omega
    constructor
    · intro ty hx hy hty
      unfold applyInput applyMove applyTurn moveBackward
      simp only [if_neg hnf, if_pos hb, hx, hy, hty, hn1, hn2, Option.bind_eq_bind,
        Option.some_bind, pure, if_true, if_false, Option.map_some']
    · intro tx hx htx hy
      unfold applyInput applyMove applyTurn moveBackward
      simp only [if_neg hnf, if_pos hb, hx, hy, htx, hn1, hn2, Option.bind_eq_bind,
        Option.some_bind, pure, if_true, if_false, Option.map_some']

theorem move_axis_separation_witness :
    applyInput corridor 2000 500 (initialState diagPlayer) = some
      { initialState diagPlayer with player_data := { diagPlayer with
          pos_x := add diagPlayer.pos_x (mul diagPlayer.dir_x MOVE_STEP) } } :=
  ((move_axis_separation corridor (initialState diagPlayer) 2000 500 (by decide)).1
    (by decide)).1 1 (by rfl) (by rfl) (by decide)

/-- C18: in every state reached from the initial state by a sequence of input
updates, `plane_x == (-dir_y) * FOV_SCALE` and `plane_y == dir_x * FOV_SCALE`; from such
a state an update without a turn changes neither `dir` nor the plane, and an update
with a turn leaves the plane recomputed from the new `dir`. -/
theorem plane_invariant (m : MapView) (p : PlayerData) (inputs : List (Nat × Nat))
    (g : GameState) (hreach : applyInputs m inputs (initialState p) = some g) :
    (g.plane_x = mul (neg g.player_data.dir_y) FOV_SCALE ∧
      g.plane_y = mul g.player_data.dir_x FOV_SCALE) ∧
    (∀ (vrx_reading vry_reading : Nat) (g1 : GameState),
      1000 ≤ vrx_reading → vrx_reading ≤ 3000 →
      applyInput m vrx_reading vry_reading g = some g1 →
      g1.player_data.dir_x = g.player_data.dir_x ∧ g1.player_data.dir_y = g.player_data.dir_y ∧
      g1.plane_x = g.plane_x ∧ g1.plane_y = g.plane_y) ∧
    (∀ (vrx_reading vry_reading : Nat) (g1 : GameState),
      (vrx_reading > 3000 ∨ vrx_reading < 1000) →
      applyInput m vrx_reading vry_reading g = some g1 →
      g1.plane_x = mul (neg g1.player_data.dir_y) FOV_SCALE ∧
      g1.plane_y = mul g1.player_data.dir_x FOV_SCALE) := by
  refine ⟨applyInputs_inv m inputs _ g hreach ⟨rfl, rfl⟩, ?_, ?_⟩
  · intro vrx vry g1 h1 h2 h
    exact (applyInput_plane m vrx vry g g1 h).1 ⟨h1, h2⟩
  · intro vrx vry g1 hturn h
    exact (applyInput_plane m vrx vry g g1 h).2 hturn

set_option maxRecDepth 20000 in
theorem plane_invariant_witness :
    applyInputs corridor [(3500, 2000), (2000, 500), (500, 3500)] (initialState diagPlayer)
      = some
        { player_data :=
            { pos_x := fromRaw 98304, pos_y := fromRaw 98304,
              dir_x := fromRaw 65535, dir_y := fromRaw 65535 },
          plane_x := fromRaw (-43691), plane_y := fromRaw 43690 } ∧
    fromRaw (-43691) = mul (neg (fromRaw 65535)) FOV_SCALE ∧
    fromRaw 43690 = mul (fromRaw 65535) FOV_SCALE :=
  ⟨by rfl,
    (plane_invariant corridor diagPlayer [(3500, 2000), (2000, 500), (500, 3500)]
      { player_data :=
          { pos_x := fromRaw 98304, pos_y := fromRaw 98304,
            dir_x := fromRaw 65535, dir_y := fromRaw 65535 },
        plane_x := fromRaw (-43691), plane_y := fromRaw 43690 } (by rfl)).1⟩

/-- C21: evaluation of the draw range at `wall_dist = fromRaw(256)` (1/256 of a cell,
a positive value): the quotient `SCREEN_HEIGHT / wall_dist` wraps, `line_height` is
-32768, `draw_start` is 16448 and `draw_end` is -16320, both outside [0, 127] and in
the wrong order; the scan loop then starts at row 16448 of the 128-entry buffer. For
every non-negative `line_height`, and so for every `wall_dist` of raw value at least
257, both lie in [0, 127] with `draw_start <= draw_end`. -/
theorem drawRange_negative_line_height :
    0 < (fromRaw 256).toRaw ∧ lineHeight (fromRaw 256) = some (-32768) ∧
    drawStart (-32768) = 16448 ∧ drawEnd (-32768) = -16320 ∧
    toUInt32 (drawStart (-32768)) = 16448 ∧
    toUInt32 (drawEnd (-32768)) = 4294950976 ∧
    renderColumn blob3 cells3 1 0 0 (-32768) = none ∧
    (∀ line_height : Int, 0 ≤ line_height → line_height ≤ 32767 →
      0 ≤ drawStart line_height ∧ drawStart line_height ≤ drawEnd line_height ∧
      drawEnd line_height ≤ 127) ∧
    (∀ wall_dist : Fixed15_16, 257 ≤ wall_dist.toRaw → wall_dist.toRaw ≤ 2147483647 →
      ∃ line_height, lineHeight wall_dist = some line_height ∧
        0 ≤ drawStart line_height ∧ drawStart line_height ≤ drawEnd line_height ∧
        drawEnd line_height ≤ 127) := by
  have hrange : ∀ line_height : Int, 0 ≤ line_height → line_height ≤ 32767 →
      0 ≤ drawStart line_height ∧ drawStart line_height ≤ drawEnd line_height ∧
      drawEnd line_height ≤ 127 := by
    intro lh h0 h1
    obtain ⟨hs, he⟩ := drawRange_of_nonneg lh h0 h1
    rw [hs, he]
    omega
  refine ⟨by decide, ?_, by rfl, by rfl, by rfl, by rfl, renderColumn_wrapped, hrange, ?_⟩
  · rw [lineHeight_eq _ (by decide)]
    rfl
  · intro wall_dist h0 _
    have hq0 : 0 ≤ 549755813888 / wall_dist.toRaw := Int.ediv_nonneg (by omega) (by omega)
    have hq1 : 549755813888 / wall_dist.toRaw < 2147483648 := by
      rw [Int.ediv_lt_iff_lt_mul (by omega)]
      omega
    refine ⟨_, lineHeight_eq wall_dist (by omega), ?_⟩
    apply hrange
    · generalize 549755813888 / wall_dist.toRaw = q at hq0 hq1 ⊢
      simp only [toInt32, toInt16]
      split_ifs <;> omega
    · generalize 549755813888 / wall_dist.toRaw = q at hq0 hq1 ⊢
      simp only [toInt32, toInt16]
      split_ifs <;> omega

/-- C23 (counterexample): for the non-zero ray component with raw value 1 the quotient
2^32 wraps to 0 and `delta_dist` is 0, not strictly positive; for raw value 2 the
quotient 2^31 wraps and `delta_dist` is `INT32_MIN`. -/
theorem deltaDist_not_positive :
    (fromRaw 1).toRaw ≠ 0 ∧ deltaDist (fromRaw 1) = some (fromRaw 0) ∧
    Int.tdiv 4294967296 1 = 4294967296 ∧
    (fromRaw 2).toRaw ≠ 0 ∧ deltaDist (fromRaw 2) = some (fromRaw (-2147483648)) := by
  decide

/-- C23 (amended): for every `Fixed15_16` ray direction component `r` whose raw value
has absolute value at least 3, `delta_dist = abs(1 / r)` is strictly positive and its
raw value is `|2^32 / r.raw|` with the quotient rounded toward zero. -/
theorem deltaDist_reciprocal (r : Fixed15_16) (hv : r.Valid) (h3 : 3 ≤ r.toRaw.natAbs) :
    ∃ d, deltaDist r = some d ∧ 0 < d.toRaw ∧
      d.toRaw = (Int.tdiv 4294967296 r.toRaw).natAbs := by
  have hv2 : -2147483648 ≤ r.toRaw ∧ r.toRaw ≤ 2147483647 := hv
  have hne : r.toRaw ≠ 0 := by omega
  rw [deltaDist_eq r hne]
  refine ⟨_, rfl, ?_⟩
  rw [abs_toRaw, toRaw_fromRaw]
  by_cases hpos : 0 < r.toRaw
  · rw [Int.tdiv_eq_ediv (by decide) (by omega)]
    have hq1 : 2 ≤ 4294967296 / r.toRaw := by
      rw [Int.le_ediv_iff_mul_le hpos]
      omega
    have hq2 : 4294967296 / r.toRaw < 1431655766 := by
      rw [Int.ediv_lt_iff_lt_mul hpos]
      omega
    generalize 4294967296 / r.toRaw = q at *
    simp only [toInt32]
    split_ifs <;> omega
  · rw [tdiv_pos_neg _ _ (by decide) (by omega)]
    have hq1 : 2 ≤ 4294967296 / (-r.toRaw) := by
      rw [Int.le_ediv_iff_mul_le (by omega)]
      omega
    have hq2 : 4294967296 / (-r.toRaw) < 1431655766 := by
      rw [Int.ediv_lt_iff_lt_mul (by omega)]
      omega
    generalize 4294967296 / (-r.toRaw) = q at *
    simp only [toInt32]
    split_ifs <;> omega

theorem deltaDist_reciprocal_witness :
    (ofFloat (-1) 3).Valid ∧ 3 ≤ (ofFloat (-1) 3).toRaw.natAbs ∧
    ∃ d, deltaDist (ofFloat (-1) 3) = some d ∧ 0 < d.toRaw ∧
      d.toRaw = (Int.tdiv 4294967296 (ofFloat (-1) 3).toRaw).natAbs :=
  ⟨by decide, by decide, deltaDist_reciprocal (ofFloat (-1) 3) (by decide) (by decide)⟩

/-- C24: for every `Fixed15_16` value `wall_x` of either sign, every side and every ray
direction, `tex_x_coord`, mirrored or not, satisfies `0 <= tex_x_coord <= TEX_SIZE - 1`,
which is 63. -/
theorem texXCoord_in_range (side : Nat) (ray_dir_x ray_dir_y wall_x : Fixed15_16)
    (hx : wall_x.Valid) :
    (TEX_SIZE : Int) - 1 = 63 ∧
    0 ≤ rawTexCoord wall_x ∧ rawTexCoord wall_x ≤ (TEX_SIZE : Int) - 1 ∧
    0 ≤ toInt16 ((TEX_SIZE : Int) - rawTexCoord wall_x - 1) ∧
    toInt16 ((TEX_SIZE : Int) - rawTexCoord wall_x - 1) ≤ (TEX_SIZE : Int) - 1 ∧
    0 ≤ texXCoord side ray_dir_x ray_dir_y wall_x ∧
    texXCoord side ray_dir_x ray_dir_y wall_x ≤ (TEX_SIZE : Int) - 1 := by
  have hr := rawTexCoord_range wall_x hx
  have hts : (TEX_SIZE : Int) = 64 := by decide
  have hm : 0 ≤ toInt16 ((TEX_SIZE : Int) - rawTexCoord wall_x - 1) ∧
      toInt16 ((TEX_SIZE : Int) - rawTexCoord wall_x - 1) ≤ 63 := by
    rw [hts]
    generalize rawTexCoord wall_x = c at *
    simp only [toInt16]
    split_ifs <;> omega
  have ht : 0 ≤ texXCoord side ray_dir_x ray_dir_y wall_x ∧
      texXCoord side ray_dir_x ray_dir_y wall_x ≤ 63 := by
    unfold texXCoord
    simp only
    split_ifs
    · exact hm
    · exact hr
  have e63 : (TEX_SIZE : Int) - 1 = 63 := by rw [hts]; decide
  rw [e63]
  exact ⟨rfl, hr.1, hr.2, hm.1, hm.2, ht.1, ht.2⟩

theorem texXCoord_in_range_witness :
    (ofFloat (-5) 4).Valid ∧
    0 ≤ texXCoord 0 (ofInt 1) (ofInt 0) (ofFloat (-5) 4) ∧
    texXCoord 0 (ofInt 1) (ofInt 0) (ofFloat (-5) 4) ≤ (TEX_SIZE : Int) - 1 :=
  ⟨by decide,
    (texXCoord_in_range 0 (ofInt 1) (ofInt 0) (ofFloat (-5) 4) (by decide)).2.2.2.2.2⟩

/-- C25: `TEX_SIZE == 2^TEX_LOG2_SIZE == 64` and `TEX_MASK == 63`, and for every
`Fixed15_16` value `tex_pos`, negative ones included, the texel row
`tex_pos.toInt() & TEX_MASK` lies in [0, 64) and is the non-negative remainder of
`tex_pos.toInt()` modulo 64. -/
theorem texYCoord_mask_mod (tex_pos : Fixed15_16) :
    TEX_SIZE = 2 ^ TEX_LOG2_SIZE ∧ TEX_SIZE = 64 ∧ TEX_MASK = 63 ∧
    0 ≤ texYCoord tex_pos ∧ texYCoord tex_pos < 64 ∧
    texYCoord tex_pos = tex_pos.toInt % 64 ∧
    texYCoord (ofFloat (-5) 4) = 62 := by
  have h := texYCoord_eq tex_pos
  refine ⟨by decide, by decide, by decide, ?_, ?_, h, by decide⟩
  · rw [h]; omega
  · rw [h]; omega

/-- C26: for every screen column `x` in [0, 160) `camera_x` is defined, its raw value
is `floor(x * 65536 / 80) - 65536`, it lies in [-1, 1], it is strictly increasing in
`x`, it is `Fixed15_16(-1)` at `x = 0` and `Fixed15_16(0)` at `x = 80`. -/
theorem cameraX_range (x : Nat) (hx : x < SCREEN_WIDTH) :
    (∃ c, cameraX x = some c ∧ c.toRaw = (x : Int) * 65536 / 80 - 65536 ∧
      -65536 ≤ c.toRaw ∧ c.toRaw ≤ 65536 ∧
      (∀ (y : Nat) (d : Fixed15_16), y < SCREEN_WIDTH → x < y → cameraX y = some d →
        c.toRaw < d.toRaw)) ∧
    cameraX 0 = some (ofInt (-1)) ∧ cameraX 80 = some (ofInt 0) := by
  have hx2 : x < 160 := hx
  refine ⟨⟨_, cameraX_eq x hx, ?_, ?_, ?_, ?_⟩, by decide, by decide⟩
  · rw [toRaw_fromRaw]
  · rw [toRaw_fromRaw]; omega
  · rw [toRaw_fromRaw]; omega
  · intro y d hy hxy hd
    have hy2 : y < 160 := hy
    rw [cameraX_eq y hy] at hd
    cases hd
    rw [toRaw_fromRaw, toRaw_fromRaw]
    omega

theorem cameraX_range_witness :
    159 < SCREEN_WIDTH ∧
    ∃ c, cameraX 159 = some c ∧ c.toRaw = (159 : Int) * 65536 / 80 - 65536 ∧
      -65536 ≤ c.toRaw ∧ c.toRaw ≤ 65536 :=
  ⟨by decide,
    Exists.elim (cameraX_range 159 (by decide)).1
      (fun c hc => ⟨c, hc.1, hc.2.1, hc.2.2.1, hc.2.2.2.1⟩)⟩

/-- C29: for every width and height in [0, 255] and all `x < width`, `y < height`, the
index `y + height * x` that `getTileUnchecked` reads is below `width * height`, and two
in-bounds coordinate pairs with the same index are equal. -/
theorem tileIndex_injective (m : MapView) (x1 y1 x2 y2 : Nat)
    (hx1 : x1 < m.width) (hy1 : y1 < m.height) (hx2 : x2 < m.width) (hy2 : y2 < m.height) :
    m.getTileUnchecked x1 y1 = m.tile_data[m.tileIndex x1 y1]? ∧
    m.tileIndex x1 y1 = y1 + m.height * x1 ∧
    m.tileIndex x1 y1 < m.width * m.height ∧
    m.tileIndex x2 y2 < m.width * m.height ∧
    (m.tileIndex x1 y1 = m.tileIndex x2 y2 → x1 = x2 ∧ y1 = y2) ∧
    ((x1, y1) ≠ (x2, y2) → m.tileIndex x1 y1 ≠ m.tileIndex x2 y2) := by
  have hinj : m.tileIndex x1 y1 = m.tileIndex x2 y2 → x1 = x2 ∧ y1 = y2 := by
    intro h
    unfold MapView.tileIndex at h
    have hpos : 0 < m.height := by omega
    have hd1 : (y1 + m.height * x1) / m.height = x1 := by
      rw [Nat.add_mul_div_left _ _ hpos, Nat.div_eq_of_lt hy1, Nat.zero_add]
    have hd2 : (y2 + m.height * x2) / m.height = x2 := by
      rw [Nat.add_mul_div_left _ _ hpos, Nat.div_eq_of_lt hy2, Nat.zero_add]
    have hxx : x1 = x2 := by
      rw [← hd1, ← hd2, h]
    rw [hxx] at h
    exact ⟨hxx, by omega⟩
  refine ⟨rfl, rfl, index_lt _ _ _ _ hx1 hy1, index_lt _ _ _ _ hx2 hy2, hinj, ?_⟩
  intro hne heq
  apply hne
  obtain ⟨h1, h2⟩ := hinj heq
  rw [h1, h2]

theorem tileIndex_injective_witness :
    corridor.tileIndex 1 2 < corridor.width * corridor.height ∧
    corridor.tileIndex 1 2 ≠ corridor.tileIndex 2 0 :=
  ⟨(tileIndex_injective corridor 1 2 2 0 (by decide) (by decide) (by decide)
      (by decide)).2.2.1,
    (tileIndex_injective corridor 1 2 2 0 (by decide) (by decide) (by decide)
      (by decide)).2.2.2.2.2 (by decide)⟩

/-! ## Scan-loop theorems -/

/-- C27: for a column with struck tile value `N > 0` whose texture `N - 1` is present
(and texture `N` when the hit side is 1), a positive `line_height`, a texture column in
[0, 63] and readable texture cells, the column is rendered, and for every row
`y = draw_start + k` in `[draw_start, draw_end)` the pixel `ray_column[y]` is the cell
at column `tex_x_coord` and row `tex_y_coord` (the masked `k`-th texture position) of
the texture that `getTextureData` returns for index `N - 1` when the side is not 1 and
for index `N` when the side is 1. -/
theorem column_texture_selection (blob : TextureBlob) (cells : Nat → Option Nat)
    (tile side : Nat) (tex_x_coord line_height : Int)
    (hblob : blob.WellFormed) (htile : 1 ≤ tile ∧ tile ≤ 255)
    (hlit : tile ≤ blob.header.tex_count) (hshade : side = 1 → tile < blob.header.tex_count)
    (hlh : 1 ≤ line_height ∧ line_height ≤ 32767)
    (htx : 0 ≤ tex_x_coord ∧ tex_x_coord ≤ 63)
    (hcells : ∀ (i off c : Nat), blob.offset_array[i]? = some off → c < 4096 →
      ∃ v, cells (off + 2 * c) = some v) :
    ∃ step ray_column, texStep line_height = some step ∧
      renderColumn blob cells tile side tex_x_coord line_height = some ray_column ∧
      ∀ k : Nat, (k : Int) < drawEnd line_height - drawStart line_height →
        ∃ off color,
          TextureManager.getTextureData blob (if side = 1 then tile else tile - 1)
            = some (TexturePtr.blobPlus off) ∧
          ray_column[(drawStart line_height).toNat + k]? = some color ∧
          cells (off + 2 * (tex_x_coord * 64
            + texYCoord (texPosAt (texPosStart line_height step) step k)).toNat)
            = some color := by
  obtain ⟨step, col, hstep, hcol, _, _, hin⟩ :=
    renderColumn_spec blob cells tile side tex_x_coord line_height hblob htile hlit hshade
      hlh htx hcells
  refine ⟨step, col, hstep, hcol, ?_⟩
  intro k hk
  obtain ⟨off, v, hoff, hv1, hv2⟩ := hin k hk
  refine ⟨off, v, ?_, hv1, hv2⟩
  have hidx : ¬ (if side = 1 then tile else tile - 1) ≥ blob.header.tex_count := by
    by_cases hs : side = 1
    · have := hshade hs
      rw [if_pos hs]
      omega
    · rw [if_neg hs]
      omega
  rw [TextureManager.getTextureData, if_neg hidx, hoff]
  rfl

theorem column_texture_selection_witness :
    blob3.WellFormed ∧
    (∀ (i off c : Nat), blob3.offset_array[i]? = some off → c < 4096 →
      ∃ v, cells3 (off + 2 * c) = some v) ∧
    ∃ step ray_column, texStep 200 = some step ∧
      renderColumn blob3 cells3 2 1 63 200 = some ray_column ∧
      ∀ k : Nat, (k : Int) < drawEnd 200 - drawStart 200 →
        ∃ off color,
          TextureManager.getTextureData blob3 (if 1 = 1 then 2 else 2 - 1)
            = some (TexturePtr.blobPlus off) ∧
          ray_column[(drawStart 200).toNat + k]? = some color ∧
          cells3 (off + 2 * ((63 : Int) * 64
            + texYCoord (texPosAt (texPosStart 200 step) step k)).toNat)
            = some color :=
  ⟨by decide, cells3_readable,
    column_texture_selection blob3 cells3 2 1 63 200 (by decide) (by decide) (by decide)
      (fun _ => by decide) (by decide) (by decide) cells3_readable⟩

/-- C28: under the same conditions the rendered column has `SCREEN_HEIGHT` entries and
`ray_column[y] == 0` for every row `y` in `[0, SCREEN_HEIGHT)` with `y < draw_start`
or `y >= draw_end`: the scan writes only the rows of `[draw_start, draw_end)`. -/
theorem background_rows_untouched (blob : TextureBlob) (cells : Nat → Option Nat)
    (tile side : Nat) (tex_x_coord line_height : Int)
    (hblob : blob.WellFormed) (htile : 1 ≤ tile ∧ tile ≤ 255)
    (hlit : tile ≤ blob.header.tex_count) (hshade : side = 1 → tile < blob.header.tex_count)
    (hlh : 1 ≤ line_height ∧ line_height ≤ 32767)
    (htx : 0 ≤ tex_x_coord ∧ tex_x_coord ≤ 63)
    (hcells : ∀ (i off c : Nat), blob.offset_array[i]? = some off → c < 4096 →
      ∃ v, cells (off + 2 * c) = some v) :
    ∃ ray_column,
      renderColumn blob cells tile side tex_x_coord line_height = some ray_column ∧
      ray_column.length = SCREEN_HEIGHT ∧
      ∀ y : Nat, y < SCREEN_HEIGHT →
        ((y : Int) < drawStart line_height ∨ drawEnd line_height ≤ (y : Int)) →
        ray_column[y]? = some 0 := by
  obtain ⟨step, col, _, hcol, hlen, hout, _⟩ :=
    renderColumn_spec blob cells tile side tex_x_coord line_height hblob htile hlit hshade
      hlh htx hcells
  refine ⟨col, hcol, hlen, ?_⟩
  intro y hy hrow
  rw [hout y hrow, List.getElem?_replicate, if_pos hy]

theorem background_rows_untouched_witness :
    blob3.WellFormed ∧ drawStart 4 = 62 ∧ drawEnd 4 = 66 ∧
    ∃ ray_column,
      renderColumn blob3 cells3 1 0 5 4 = some ray_column ∧
      ray_column.length = SCREEN_HEIGHT ∧
      ∀ y : Nat, y < SCREEN_HEIGHT →
        ((y : Int) < drawStart 4 ∨ drawEnd 4 ≤ (y : Int)) →
        ray_column[y]? = some 0 :=
  ⟨by decide, by decide, by decide,
    background_rows_untouched blob3 cells3 1 0 5 4 (by decide) (by decide) (by decide)
      (fun h => absurd h (by decide)) (by decide) (by decide) cells3_readable⟩

/-- C30: for every `line_height` in `[1, SCREEN_HEIGHT]`, `draw_start` equals
`wall_top_coord`, the step is defined, the starting texture position
`(draw_start - wall_top_coord) * step` is `Fixed15_16(0)`, and for every scanned row
`draw_start + k` the value `tex_pos.toInt()` lies in `[0, TEX_SIZE - 1]`, so the mask
leaves it unchanged, and it is at most the value of the next texture position. -/
theorem unmagnified_no_wrap (line_height : Int) (h1 : 1 ≤ line_height)
    (h2 : line_height ≤ SCREEN_HEIGHT) :
    drawStart line_height = wallTopCoord line_height ∧
    ∃ step, texStep line_height = some step ∧
      texPosStart line_height step = ofInt 0 ∧
      ∀ k : Nat, (k : Int) < drawEnd line_height - drawStart line_height →
        0 ≤ (texPosAt (texPosStart line_height step) step k).toInt ∧
        (texPosAt (texPosStart line_height step) step k).toInt ≤ (TEX_SIZE : Int) - 1 ∧
        texYCoord (texPosAt (texPosStart line_height step) step k)
          = (texPosAt (texPosStart line_height step) step k).toInt ∧
        (texPosAt (texPosStart line_height step) step k).toInt
          ≤ (texPosAt (texPosStart line_height step) step (k + 1)).toInt := by
  have h3 : line_height ≤ 128 := h2
  obtain ⟨hds, hde⟩ := drawRange_of_nonneg line_height (by omega) (by omega)
  have hwt := wallTopCoord_eq line_height (by omega) (by omega)
  have heq : drawStart line_height = wallTopCoord line_height := by
    rw [hds, hwt]
    omega
  refine ⟨heq, _, texStep_eq line_height h1 (by omega), texPosStart_zero _ _ heq, ?_⟩
  intro k hk
  have hkl : (k : Int) < line_height := by
    rw [hds, hde] at hk
    omega
  rw [texPosStart_zero _ _ heq, tex_size_cast, texYCoord_eq]
  obtain ⟨ha, hb, hc⟩ := texPos_unmagnified line_height h1 h3 k hkl
  refine ⟨ha, by omega, by omega, hc⟩

theorem unmagnified_no_wrap_witness :
    (1 : Int) ≤ 128 ∧ (128 : Int) ≤ SCREEN_HEIGHT ∧
    drawStart 128 = wallTopCoord 128 ∧
    ∃ step, texStep 128 = some step ∧
      texPosStart 128 step = ofInt 0 ∧
      ∀ k : Nat, (k : Int) < drawEnd 128 - drawStart 128 →
        0 ≤ (texPosAt (texPosStart 128 step) step k).toInt ∧
        (texPosAt (texPosStart 128 step) step k).toInt ≤ (TEX_SIZE : Int) - 1 ∧
        texYCoord (texPosAt (texPosStart 128 step) step k)
          = (texPosAt (texPosStart 128 step) step k).toInt ∧
        (texPosAt (texPosStart 128 step) step k).toInt
          ≤ (texPosAt (texPosStart 128 step) step (k + 1)).toInt :=
  ⟨by decide, by decide, unmagnified_no_wrap 128 (by decide) (by decide)⟩

end PicoRaycaster
